import Mathlib

/-
Verification of the Braille rendering core of tonderflash/shadowtrace.

Shallow embedding of:
  src/ui/braille_art.rs          (BrailleCanvas, BrailleAnimator)
  src/ui/widgets/braille_chart.rs (BrailleChart, Axis, Dataset, draw_line)
  src/ui/widgets/sparkline_braille.rs (SparklineBraille)
  src/ui/widgets/animated_text.rs (ScannerTextState)

Modelling conventions:
  - usize/isize become Nat/Int; wrapping casts are written out explicitly
    (mod 2^64) where the code can produce them.
  - Rust operations that can panic (integer `%` by zero, usize subtraction
    overflow) are modelled with Option: `none` is the panic.
  - f32/f64 values are modelled exactly: a finite value is an exact rational,
    plus the special values NaN / +inf / -inf with IEEE propagation rules.
    Every claim settled over this model only exercises arithmetic on values
    where IEEE rounding is the identity (0/0, x-x, division by an exact
    power of two, multiplication by 0), so exact rationals are faithful.
    Negative zero is not modelled; no claim distinguishes it from +0.
  - Calls into external crates (ratatui Block rendering, libm trig) are
    passed in as explicit function parameters: they are collaborators
    outside this repository, specified only at their boundary.
-/

/-- Exact model of an IEEE floating-point value: finite values are exact
rationals, plus NaN and the two infinities. -/
inductive F where
  | finite (q : ℚ)
  | nan
  | inf
  | neginf
deriving DecidableEq

/-- IEEE subtraction on the model (inf - inf = NaN, NaN propagates). -/
def F.sub : F → F → F
  | F.finite a, F.finite b => F.finite (a - b)
  | F.finite _, F.inf => F.neginf
  | F.finite _, F.neginf => F.inf
  | F.inf, F.finite _ => F.inf
  | F.inf, F.neginf => F.inf
  | F.inf, F.inf => F.nan
  | F.neginf, F.finite _ => F.neginf
  | F.neginf, F.inf => F.neginf
  | F.neginf, F.neginf => F.nan
  | F.nan, _ => F.nan
  | _, F.nan => F.nan

/-- IEEE addition on the model. -/
def F.add : F → F → F
  | F.finite a, F.finite b => F.finite (a + b)
  | F.finite _, F.inf => F.inf
  | F.finite _, F.neginf => F.neginf
  | F.inf, F.finite _ => F.inf
  | F.inf, F.inf => F.inf
  | F.inf, F.neginf => F.nan
  | F.neginf, F.finite _ => F.neginf
  | F.neginf, F.neginf => F.neginf
  | F.neginf, F.inf => F.nan
  | F.nan, _ => F.nan
  | _, F.nan => F.nan

/-- IEEE multiplication on the model (inf * 0 = NaN). -/
def F.mul : F → F → F
  | F.finite a, F.finite b => F.finite (a * b)
  | F.finite a, F.inf => if a > 0 then F.inf else if a < 0 then F.neginf else F.nan
  | F.finite a, F.neginf => if a > 0 then F.neginf else if a < 0 then F.inf else F.nan
  | F.inf, F.finite b => if b > 0 then F.inf else if b < 0 then F.neginf else F.nan
  | F.neginf, F.finite b => if b > 0 then F.neginf else if b < 0 then F.inf else F.nan
  | F.inf, F.inf => F.inf
  | F.inf, F.neginf => F.neginf
  | F.neginf, F.inf => F.neginf
  | F.neginf, F.neginf => F.inf
  | F.nan, _ => F.nan
  | _, F.nan => F.nan

/-- IEEE division on the model: 0/0 = NaN, x/0 = ±inf for x ≠ 0
(negative zero is not modelled). -/
def F.div : F → F → F
  | F.finite a, F.finite b =>
      if b = 0 then
        if a = 0 then F.nan else if a > 0 then F.inf else F.neginf
      else F.finite (a / b)
  | F.finite _, F.inf => F.finite 0
  | F.finite _, F.neginf => F.finite 0
  | F.inf, F.finite b => if b < 0 then F.neginf else F.inf
  | F.neginf, F.finite b => if b < 0 then F.inf else F.neginf
  | F.inf, F.inf => F.nan
  | F.inf, F.neginf => F.nan
  | F.neginf, F.inf => F.nan
  | F.neginf, F.neginf => F.nan
  | F.nan, _ => F.nan
  | _, F.nan => F.nan

/-- IEEE `<` as a Bool: any comparison involving NaN is false. -/
def F.flt : F → F → Bool
  | F.finite a, F.finite b => decide (a < b)
  | F.finite _, F.inf => true
  | F.finite _, F.neginf => false
  | F.inf, _ => false
  | F.neginf, F.finite _ => true
  | F.neginf, F.inf => true
  | F.neginf, F.neginf => false
  | F.nan, _ => false
  | _, F.nan => false

/-- IEEE `>` as a Bool: any comparison involving NaN is false. -/
def F.fgt (a b : F) : Bool := F.flt b a

/-- IEEE `<=` as a Bool: any comparison involving NaN is false. -/
def F.fle : F → F → Bool
  | F.finite a, F.finite b => decide (a ≤ b)
  | F.finite _, F.inf => true
  | F.finite _, F.neginf => false
  | F.inf, F.inf => true
  | F.inf, _ => false
  | F.neginf, _ => true
  | F.nan, _ => false
  | _, F.nan => false

/-- Rust `f64::max`: if either argument is NaN the other is returned. -/
def F.fmax : F → F → F
  | F.nan, b => b
  | a, F.nan => a
  | a, b => if F.fle a b then b else a

/-- Rust `f64::min`: if either argument is NaN the other is returned. -/
def F.fmin : F → F → F
  | F.nan, b => b
  | a, F.nan => a
  | a, b => if F.fle a b then a else b

/-- Rust `as usize` cast from a float: truncates toward zero and saturates;
NaN casts to 0. -/
def F.toUsize : F → Nat
  | F.finite q => if q ≤ 0 then 0 else min q.floor.toNat (2 ^ 64 - 1)
  | F.nan => 0
  | F.inf => 2 ^ 64 - 1
  | F.neginf => 0

/-- Rust `as u16` cast from a float: truncates toward zero and saturates;
NaN casts to 0. -/
def F.toU16 : F → Nat
  | F.finite q => if q ≤ 0 then 0 else min q.floor.toNat 65535
  | F.nan => 0
  | F.inf => 65535
  | F.neginf => 0

/-- The exact value of `f64::MAX`. -/
def f64MAX : ℚ := 2 ^ 1024 - 2 ^ 971

/-- The exact value of `f64::MIN` (= -f64::MAX). -/
def f64MIN : ℚ := -(2 ^ 1024 - 2 ^ 971)

/-- The exact value of `std::f32::consts::PI` (bit pattern 0x40490FDB). -/
def PI32 : ℚ := 13176795 / 4194304

/-! ### BrailleCanvas (src/ui/braille_art.rs, `impl Canvas for BrailleCanvas`)

The backing store is `Vec<Vec<bool>>` indexed `data[x][y]`, outer length
`width`, each inner vector of length `height`; modelled as `List (List Bool)`.
-/

structure BrailleCanvas where
  width : Nat
  height : Nat
  data : List (List Bool)
deriving DecidableEq

/-- `BrailleCanvas::new`: `vec![vec![false; height]; width]`. -/
def BrailleCanvas.new (width height : Nat) : BrailleCanvas :=
  { width := width, height := height,
    data := List.replicate width (List.replicate height false) }

/-- `BrailleCanvas::set`: `if x < self.width && y < self.height { self.data[x][y] = value; }`.
(`List.getD x []` models the index `data[x]`; for every canvas the code can
build, `x < width = data.length`, so the default is never taken.) -/
def BrailleCanvas.set (c : BrailleCanvas) (x y : Nat) (value : Bool) : BrailleCanvas :=
  if x < c.width ∧ y < c.height then
    { c with data := c.data.set x ((c.data.getD x []).set y value) }
  else c

/-- `BrailleCanvas::clear`: `for x in 0..width { for y in 0..height { data[x][y] = false } }`. -/
def BrailleCanvas.clear (c : BrailleCanvas) : BrailleCanvas :=
  { c with data :=
      ((List.range c.width).foldl
        (fun d x =>
          d.set x ((List.range c.height).foldl (fun col y => col.set y false) (d.getD x [])))
        c.data) }

/-- `BrailleCanvas::to_string`: iterates `y in 0..height/4`, `x in 0..width/2`
and pushes the fixed placeholder glyph U+2836 for every block, then a newline
per row. (The local `char_code = 0x2800` in the source is unused.) -/
def BrailleCanvas.to_string (c : BrailleCanvas) : String :=
  (List.range (c.height / 4)).foldl
    (fun s _y =>
      ((List.range (c.width / 2)).foldl (fun s2 _x => s2.push '⠶') s).push '\n')
    ""

/-- Observer: the dot stored at (x, y) (false off the grid). -/
def BrailleCanvas.getPx (c : BrailleCanvas) (x y : Nat) : Bool :=
  (c.data.getD x []).getD y false

/-- Well-formedness: the invariant `new` establishes and `set`/`clear`
preserve — the grid really is width columns of height dots. -/
def BrailleCanvas.wf (c : BrailleCanvas) : Prop :=
  c.data.length = c.width ∧ ∀ col ∈ c.data, col.length = c.height

instance (c : BrailleCanvas) : Decidable c.wf := by
  unfold BrailleCanvas.wf; infer_instance

/-! ### BrailleAnimator (src/ui/braille_art.rs)

`start_time : Instant` is never read by `update` or any draw function, so it
is omitted from the state. The f32 `cos`/`sin` calls go to libm (outside this
repository); they are passed in as an explicit `Trig` parameter. -/

inductive AnimationType where
  | Wave
  | Pulse
  | Matrix
  | Spiral
  | Scanner
deriving DecidableEq

/-- The external trigonometry used by the pulse/spiral/scanner animations:
`f32::cos` and `f32::sin`, fixed pure functions supplied by libm. -/
structure Trig where
  cosf : F → F
  sinf : F → F

structure BrailleAnimator where
  canvas : BrailleCanvas
  width : Nat
  height : Nat
  animation_type : AnimationType
  frame_count : Nat

/-- `BrailleAnimator::new`. -/
def BrailleAnimator.new (width height : Nat) (animation_type : AnimationType) :
    BrailleAnimator :=
  { canvas := BrailleCanvas.new width height, width := width, height := height,
    animation_type := animation_type, frame_count := 0 }

/-- `BrailleAnimator::draw_wave_animation`: for `x in 0..width`, sets
`(x, height/2)` when `height/2 < height`. -/
def BrailleAnimator.draw_wave_animation (a : BrailleAnimator) : BrailleAnimator :=
  { a with canvas :=
      ((List.range a.width).foldl
        (fun c x =>
          let y := a.height / 2
          if y < a.height then c.set x y true else c)
        a.canvas) }

/-- `BrailleAnimator::draw_pulse_animation`: 8 points sampled on a circle of
radius `min(width,height)/4` centered in the canvas. -/
def BrailleAnimator.draw_pulse_animation (t : Trig) (a : BrailleAnimator) : BrailleAnimator :=
  let center_x := a.width / 2
  let center_y := a.height / 2
  { a with canvas :=
      ((List.range 8).foldl
        (fun c i =>
          let angle := F.div (F.mul (F.finite i) (F.finite PI32)) (F.finite 4)
          let radius := F.div (F.finite (Nat.min a.width a.height)) (F.finite 4)
          let x := (F.add (F.finite center_x) (F.mul radius (t.cosf angle))).toUsize
          let y := (F.add (F.finite center_y) (F.mul radius (t.sinf angle))).toUsize
          if x < a.width ∧ y < a.height then c.set x y true else c)
        a.canvas) }

/-- `BrailleAnimator::draw_matrix_animation`: five falling markers at
`x = (i*10) % width`, `y = (frame_count + i*3) % height`. The Rust `%` on
usize panics when the modulus is zero; the loop body always runs (i = 0..5),
so the panic fires exactly when `width = 0` or `height = 0`, modelled as
`none`. -/
def BrailleAnimator.draw_matrix_animation (a : BrailleAnimator) : Option BrailleAnimator :=
  if a.width = 0 ∨ a.height = 0 then none
  else some { a with canvas :=
      ((List.range 5).foldl
        (fun c i =>
          let x := (i * 10) % a.width
          let y := (a.frame_count + i * 3) % a.height
          if y < a.height then c.set x y true else c)
        a.canvas) }

/-- `BrailleAnimator::draw_spiral_animation`: ten points on an expanding
spiral centered in the canvas. -/
def BrailleAnimator.draw_spiral_animation (t : Trig) (a : BrailleAnimator) : BrailleAnimator :=
  let center_x := a.width / 2
  let center_y := a.height / 2
  { a with canvas :=
      ((List.range 10).foldl
        (fun c i =>
          let angle := F.mul (F.mul (F.div (F.finite i) (F.finite 10)) (F.finite 2)) (F.finite PI32)
          let radius := F.div (F.mul (F.div (F.finite i) (F.finite 10))
            (F.finite (Nat.min a.width a.height))) (F.finite 3)
          let x := (F.add (F.finite center_x) (F.mul radius (t.cosf angle))).toUsize
          let y := (F.add (F.finite center_y) (F.mul radius (t.sinf angle))).toUsize
          if x < a.width ∧ y < a.height then c.set x y true else c)
        a.canvas) }

/-- Truncation toward zero of a rational, as used by Rust float `%`. -/
def ratTrunc (q : ℚ) : ℤ := if 0 ≤ q then ⌊q⌋ else ⌈q⌉

/-- Rust `%` on floats (fmod): `a - (a/b).trunc() * b`; NaN when the divisor
is zero or the dividend is infinite. -/
def F.frem : F → F → F
  | F.finite a, F.finite b =>
      if b = 0 then F.nan else F.finite (a - (ratTrunc (a / b) : ℚ) * b)
  | F.finite a, F.inf => F.finite a
  | F.finite a, F.neginf => F.finite a
  | F.inf, _ => F.nan
  | F.neginf, _ => F.nan
  | F.nan, _ => F.nan
  | _, F.nan => F.nan

/-- `BrailleAnimator::draw_scanner_animation`: ten points sampled outward
along a radial line at angle `(frame_count / 10) % 2π`. -/
def BrailleAnimator.draw_scanner_animation (t : Trig) (a : BrailleAnimator) : BrailleAnimator :=
  let center_x := a.width / 2
  let center_y := a.height / 2
  let angle := F.frem (F.div (F.finite a.frame_count) (F.finite 10))
    (F.mul (F.finite 2) (F.finite PI32))
  let max_len := F.div (F.finite (Nat.min a.width a.height)) (F.finite 2)
  { a with canvas :=
      ((List.range 10).foldl
        (fun c i =>
          let len := F.mul (F.div (F.finite i) (F.finite 10)) max_len
          let x := (F.add (F.finite center_x) (F.mul len (t.cosf angle))).toUsize
          let y := (F.add (F.finite center_y) (F.mul len (t.sinf angle))).toUsize
          if x < a.width ∧ y < a.height then c.set x y true else c)
        a.canvas) }

/-- `BrailleAnimator::update`: sets the frame counter (`count as u64`, or
`wrapping_add(1)`), clears the canvas, and dispatches on the variant.
`none` is the Matrix-variant panic on a zero-dimension canvas. -/
def BrailleAnimator.update (t : Trig) (a : BrailleAnimator) (frame_count : Option Nat) :
    Option BrailleAnimator :=
  let fc := match frame_count with
    | some count => count % 2 ^ 64
    | none => (a.frame_count + 1) % 2 ^ 64
  let a1 : BrailleAnimator := { a with frame_count := fc, canvas := a.canvas.clear }
  match a1.animation_type with
  | AnimationType.Wave => some a1.draw_wave_animation
  | AnimationType.Pulse => some (BrailleAnimator.draw_pulse_animation t a1)
  | AnimationType.Matrix => a1.draw_matrix_animation
  | AnimationType.Spiral => some (BrailleAnimator.draw_spiral_animation t a1)
  | AnimationType.Scanner => some (BrailleAnimator.draw_scanner_animation t a1)

/-! ### Bresenham rasterizer

`BrailleChart::draw_line` (src/ui/widgets/braille_chart.rs) and
`SparklineBraille::draw_line` (src/ui/widgets/sparkline_braille.rs) are the
same code, embedded once. The loop's control flow never reads the canvas, so
the embedding first computes the list of coordinates the loop visits
(`bresGo` mirrors the loop body, early breaks included) and then performs
the clipped writes in order.

All loop arithmetic is `isize` arithmetic: in release builds every
overflowing operation wraps two's-complement (modelled by `wrap64` below);
in debug builds the same operations panic instead of wrapping, so wherever
the wraps below are the identity the two builds agree, and wherever a wrap
fires the release build diverges from the exact walk and the debug build
aborts. `bresGoEx` is the same loop over exact (unbounded) integers — the
idealized 8-connected Bresenham walk of the spec; `bresGo_eq_ex` below
proves the two coincide whenever no intermediate overflows. -/

/-- Two's-complement wrap of an integer into the isize range
`[-2^63, 2^63)` — Rust release-build overflow semantics. -/
def wrap64 (z : Int) : Int := (z + 2 ^ 63) % (2 ^ 64 : Int) - 2 ^ 63

/-- Rust `isize::abs` (wraps at `isize::MIN` in release builds). -/
def iabs (z : Int) : Int := wrap64 |z|

/-- The coordinates visited by the `draw_line` loop, in order, with faithful
wrapping isize arithmetic. The parameters after the endpoint are the loop
constants `sx, sy, dx, dy`; the trailing arguments are the mutable
`x0, y0, err`. Fuel bounds the iterations modelled; every claim settled
below evaluates strictly within it. The source's second break test
(`e2 <= dx && y0 == y1`) runs after the x-step, but reads only `e2` and
`y0`, which the x-step does not touch, so it is hoisted next to the first
break test; the error update applies the two `+=` wraps in source order. -/
def bresGo (x1 y1 sx sy dx dy : Int) : Nat → Int → Int → Int → List (Int × Int)
  | 0, _, _, _ => []
  | fuel + 1, x0, y0, err =>
    (x0, y0) ::
    (if x0 = x1 ∧ y0 = y1 then []
     else if wrap64 (2 * err) ≥ dy ∧ x0 = x1 then []
     else if wrap64 (2 * err) ≤ dx ∧ y0 = y1 then []
     else
       bresGo x1 y1 sx sy dx dy fuel
         (if wrap64 (2 * err) ≥ dy then wrap64 (x0 + sx) else x0)
         (if wrap64 (2 * err) ≤ dx then wrap64 (y0 + sy) else y0)
         (if wrap64 (2 * err) ≤ dx then
            wrap64 ((if wrap64 (2 * err) ≥ dy then wrap64 (err + dy) else err) + dx)
          else if wrap64 (2 * err) ≥ dy then wrap64 (err + dy) else err))

/-- The full visited path of `draw_line` between two isize coordinates:
`dx = (x1 - x0).abs()`, `dy = -(y1 - y0).abs()`, `sx/sy` from the
comparisons, initial `err = dx + dy`, with each isize operation wrapped
exactly as in the source. -/
def bresPath (x0 y0 x1 y1 : Int) : List (Int × Int) :=
  let dx := iabs (wrap64 (x1 - x0))
  let dy := wrap64 (-(iabs (wrap64 (y1 - y0))))
  bresGo x1 y1 (if x0 < x1 then 1 else -1) (if y0 < y1 then 1 else -1)
    dx dy (dx.natAbs + dy.natAbs + 1) x0 y0 (wrap64 (dx + dy))

/-- The same loop over exact (unbounded) integers: the idealized 8-connected
Bresenham walk that the spec's "line path" denotes. The program computes
exactly this whenever none of its isize operations overflow
(`bresGo_eq_ex`). -/
def bresGoEx (x1 y1 sx sy dx dy : Int) : Nat → Int → Int → Int → List (Int × Int)
  | 0, _, _, _ => []
  | fuel + 1, x0, y0, err =>
    (x0, y0) ::
    (if x0 = x1 ∧ y0 = y1 then []
     else if 2 * err ≥ dy ∧ x0 = x1 then []
     else if 2 * err ≤ dx ∧ y0 = y1 then []
     else
       bresGoEx x1 y1 sx sy dx dy fuel
         (if 2 * err ≥ dy then x0 + sx else x0)
         (if 2 * err ≤ dx then y0 + sy else y0)
         ((if 2 * err ≥ dy then err + dy else err) + (if 2 * err ≤ dx then dx else 0)))

/-- The exact-arithmetic Bresenham path between two integer coordinates:
`dx = |x1-x0|`, `dy = -|y1-y0|`, the ideal counterpart of `bresPath`. -/
def bresPathEx (x0 y0 x1 y1 : Int) : List (Int × Int) :=
  let dx := (x1 - x0).natAbs
  let dy := (y1 - y0).natAbs
  bresGoEx x1 y1 (if x0 < x1 then 1 else -1) (if y0 < y1 then 1 else -1)
    (dx : Int) (-(dy : Int)) (dx + dy + 1) x0 y0 ((dx : Int) + (-(dy : Int)))

/-- Rust `usize as isize` (two's-complement reinterpretation). -/
def usizeToIsize (n : Nat) : Int := if n < 2 ^ 63 then (n : Int) else (n : Int) - 2 ^ 64

/-- `draw_line`: walks the Bresenham path; each pixel write is clipped
independently (`x0 >= 0 && x0 < width && y0 >= 0 && y0 < height`). -/
def draw_line (canvas : BrailleCanvas) (x0 y0 x1 y1 : Nat) : BrailleCanvas :=
  (bresPath (usizeToIsize x0) (usizeToIsize y0) (usizeToIsize x1) (usizeToIsize y1)).foldl
    (fun c p =>
      if 0 ≤ p.1 ∧ p.1 < (c.width : Int) ∧ 0 ≤ p.2 ∧ p.2 < (c.height : Int) then
        c.set p.1.toNat p.2.toNat true
      else c)
    canvas

/-! ### ratatui boundary (Rect, Buffer, set_string / set_span)

`Rect`, `Buffer` and their write methods live in the external ratatui crate;
they are modelled at their boundary: a buffer is a cell map, `set_string`
writes the characters of a string at consecutive cells of one row, and
`set_span` does the same truncated to a given width. Styles are opaque
tags. -/

structure Rect where
  x : Nat
  y : Nat
  width : Nat
  height : Nat
deriving DecidableEq

structure Cell where
  ch : Char
  style : Nat
deriving DecidableEq

def Buffer : Type := Nat → Nat → Cell

/-- `Buffer::set_string`. -/
def bufSetString (b : Buffer) (x y : Nat) (s : String) (st : Nat) : Buffer :=
  fun u v =>
    if v = y ∧ x ≤ u ∧ u < x + s.length then { ch := s.data.getD (u - x) ' ', style := st }
    else b u v

/-- `Buffer::set_span` with a maximum width. -/
def bufSetSpan (b : Buffer) (x y : Nat) (content : String) (st : Nat) (maxw : Nat) : Buffer :=
  fun u v =>
    if v = y ∧ x ≤ u ∧ u < x + Nat.min content.length maxw then
      { ch := content.data.getD (u - x) ' ', style := st }
    else b u v

/-- Rust `str::lines` (the sources never contain a carriage return). -/
def rustLines (s : String) : List String :=
  if s = "" then []
  else if s.endsWith "\n" then (s.splitOn "\n").dropLast
  else s.splitOn "\n"

/-- The blit loop shared (textually) by chart and sparkline `render`: write
line `i` at `(x, y+i)` while `i < maxRows`. -/
def blitLines (buf : Buffer) (x y : Nat) (lines : List String) (maxRows st : Nat) : Buffer :=
  lines.enum.foldl
    (fun b iline =>
      if iline.1 < maxRows then bufSetString b x (y + iline.1) iline.2 st else b)
    buf

/-! ### BrailleChart (src/ui/widgets/braille_chart.rs)

The optional `Block` is external ratatui code: it is modelled as an opaque
function returning the inner area and the buffer with the block drawn. -/

structure Span where
  content : String
  style : Nat

structure Axis where
  title : Option Span
  labels : List Span
  bounds : F × F
  style : Nat

/-- `Axis::default()`: empty labels, bounds `[0.0, 0.0]`. -/
def Axis.default : Axis :=
  { title := none, labels := [], bounds := (F.finite 0, F.finite 0), style := 0 }

structure Dataset where
  name : String
  data : List (F × F)
  style : Nat

structure BrailleChart where
  block : Option (Rect → Buffer → Rect × Buffer)
  datasets : List Dataset
  style : Nat
  x_axis : Axis
  y_axis : Axis
  title : Option String

/-- The f64 value computed by the chart's `scale_x` closure before the
`as usize` cast: `(x - x_min) / (x_max - x_min) * width as f64`. -/
def BrailleChart.scale_x_val (x_min x_max : F) (width : Nat) (x : F) : F :=
  F.mul (F.div (F.sub x x_min) (F.sub x_max x_min)) (F.finite width)

/-- The chart's `scale_x` closure. -/
def BrailleChart.scale_x (x_min x_max : F) (width : Nat) (x : F) : Nat :=
  (BrailleChart.scale_x_val x_min x_max width x).toUsize

/-- The f64 value computed by the chart's `scale_y` closure before the cast. -/
def BrailleChart.scale_y_val (y_min y_max : F) (height : Nat) (y : F) : F :=
  F.mul (F.div (F.sub y y_min) (F.sub y_max y_min)) (F.finite height)

/-- The chart's `scale_y` closure: `height - (...) as usize`. (The Nat
subtraction is exact for every point that passes the range filter.) -/
def BrailleChart.scale_y (y_min y_max : F) (height : Nat) (y : F) : Nat :=
  height - (BrailleChart.scale_y_val y_min y_max height y).toUsize

/-- `BrailleChart::draw_dataset`: drops out-of-range points (breaking line
continuity through the `prev` state), scales kept points, sets each point
and draws a segment to the previous kept point. -/
def BrailleChart.draw_dataset (ch : BrailleChart) (dataset : Dataset)
    (canvas : BrailleCanvas) : BrailleCanvas :=
  if dataset.data = [] then canvas
  else
    let x_min := ch.x_axis.bounds.1
    let x_max := ch.x_axis.bounds.2
    let y_min := ch.y_axis.bounds.1
    let y_max := ch.y_axis.bounds.2
    let width := canvas.width
    let height := canvas.height
    (dataset.data.foldl
      (fun (st : BrailleCanvas × Option (Nat × Nat)) p =>
        if F.flt p.1 x_min || F.fgt p.1 x_max || F.flt p.2 y_min || F.fgt p.2 y_max then
          (st.1, none)
        else
          let canvas_x := Nat.min (BrailleChart.scale_x x_min x_max width p.1) (width - 1)
          let canvas_y := Nat.min (BrailleChart.scale_y y_min y_max height p.2) (height - 1)
          let c1 := st.1.set canvas_x canvas_y true
          let c2 := match st.2 with
            | some prev => draw_line c1 prev.1 prev.2 canvas_x canvas_y
            | none => c1
          (c2, some (canvas_x, canvas_y)))
      (canvas, none)).1

/-- `BrailleChart::render_axes`: axis glyphs, tick labels, axis titles. -/
def BrailleChart.render_axes (ch : BrailleChart) (chart_area graph_area : Rect)
    (buf : Buffer) : Buffer :=
  let y_axis_x := graph_area.x - 1
  let buf1 := (List.range graph_area.height).foldl
    (fun b y => bufSetString b y_axis_x (graph_area.y + y) "│" ch.style) buf
  let x_axis_y := graph_area.y + graph_area.height
  let buf2 := (List.range graph_area.width).foldl
    (fun b x => bufSetString b (graph_area.x + x) x_axis_y "─" ch.style) buf1
  let buf3 := bufSetString buf2 y_axis_x x_axis_y "┼" ch.style
  let buf4 :=
    if ch.y_axis.labels.isEmpty then buf3
    else
      let label_count := ch.y_axis.labels.length
      ch.y_axis.labels.enum.foldl
        (fun b il =>
          let y_pos := graph_area.y + graph_area.height -
            (F.mul (F.div (F.finite il.1) (F.finite (label_count - 1)))
              (F.finite graph_area.height)).toU16
          if y_pos < chart_area.y + chart_area.height then
            let b1 := bufSetString b chart_area.x y_pos "      " ch.style
            let b2 := bufSetSpan b1 chart_area.x y_pos il.2.content il.2.style
              (Nat.min il.2.content.length 6)
            bufSetString b2 y_axis_x y_pos "┤" ch.style
          else b)
        buf3
  let buf5 :=
    if ch.x_axis.labels.isEmpty then buf4
    else
      let label_count := ch.x_axis.labels.length
      ch.x_axis.labels.enum.foldl
        (fun b il =>
          let x_pos := graph_area.x +
            (F.mul (F.div (F.finite il.1) (F.finite (label_count - 1)))
              (F.finite graph_area.width)).toU16
          if x_pos < chart_area.x + chart_area.width then
            let label_y := x_axis_y + 1
            let b1 := bufSetSpan b (x_pos - il.2.content.length / 2) label_y
              il.2.content il.2.style il.2.content.length
            bufSetString b1 x_pos x_axis_y "┬" ch.style
          else b)
        buf4
  let buf6 := match ch.y_axis.title with
    | some t => bufSetSpan buf5 chart_area.x graph_area.y t.content t.style
        (Nat.min t.content.length 6)
    | none => buf5
  match ch.x_axis.title with
  | some t =>
      let x_title_x := graph_area.x + graph_area.width / 2
      let x_title_y := chart_area.y + chart_area.height - 1
      bufSetSpan buf6 (x_title_x - t.content.length / 2) x_title_y t.content t.style
        t.content.length
  | none => buf6

/-- `BrailleChart::render` (`impl Widget`): early return on a small area,
optional block, axes, one canvas populated per dataset in order, blit. -/
def BrailleChart.render (ch : BrailleChart) (area : Rect) (buf : Buffer) : Buffer :=
  if area.width < 5 ∨ area.height < 5 then buf
  else
    let inner := match ch.block with
      | some bl => bl area buf
      | none => (area, buf)
    let chart_area := inner.1
    let buf1 := inner.2
    let y_label_width := 6
    let x_label_height := 2
    let graph_area : Rect :=
      { x := chart_area.x + y_label_width, y := chart_area.y,
        width := chart_area.width - y_label_width,
        height := chart_area.height - x_label_height }
    if graph_area.width = 0 ∨ graph_area.height = 0 then buf1
    else
      let buf2 := ch.render_axes chart_area graph_area buf1
      let canvas_width := graph_area.width * 2
      let canvas_height := graph_area.height * 4
      let canvas0 := BrailleCanvas.new canvas_width canvas_height
      let canvas := ch.datasets.foldl (fun c ds => ch.draw_dataset ds c) canvas0
      blitLines buf2 graph_area.x graph_area.y (rustLines canvas.to_string)
        graph_area.height ch.style

/-! ### SparklineBraille (src/ui/widgets/sparkline_braille.rs) -/

structure SparklineBraille where
  title : Option String
  data : List F
  style : Nat
  block : Option (Rect → Buffer → Rect × Buffer)
  max : Option F
  min : Option F

/-- `SparklineBraille::new(data)`. -/
def SparklineBraille.new (data : List F) : SparklineBraille :=
  { title := none, data := data, style := 0, block := none, max := none, min := none }

/-- The `max` used by `render`: explicit, or
`data.iter().fold(f64::MIN, |acc, &x| acc.max(x))`. -/
def SparklineBraille.computed_max (s : SparklineBraille) : F :=
  match s.max with
  | some m => m
  | none => s.data.foldl (fun acc x => F.fmax acc x) (F.finite f64MIN)

/-- The `min` used by `render`: explicit, or
`data.iter().fold(f64::MAX, |acc, &x| acc.min(x))`. -/
def SparklineBraille.computed_min (s : SparklineBraille) : F :=
  match s.min with
  | some m => m
  | none => s.data.foldl (fun acc x => F.fmin acc x) (F.finite f64MAX)

/-- The sparkline's `y_scale`: `height as f64 / (max - min + 1.0)`, where
`height = chart_area.height * 4`. -/
def SparklineBraille.y_scaleOf (s : SparklineBraille) (chart_area : Rect) : F :=
  F.div (F.finite (chart_area.height * 4))
    (F.add (F.sub s.computed_max s.computed_min) (F.finite 1))

/-- The sparkline's `x_scale`: `width as f64 / data_len.max(1) as f64`. -/
def SparklineBraille.x_scaleOf (s : SparklineBraille) (chart_area : Rect) : F :=
  F.div (F.finite (chart_area.width * 2)) (F.finite (Nat.max s.data.length 1))

/-- The canvas `SparklineBraille::render` populates: for each
`i in 0..data_len-1`, scale the two neighbouring samples, clamp to the
canvas edge, and draw the segment. (The Nat subtraction in
`height - (...) as usize` is exact whenever min/max are the computed ones.) -/
def SparklineBraille.canvasOf (s : SparklineBraille) (chart_area : Rect) : BrailleCanvas :=
  let min := s.computed_min
  let width := chart_area.width * 2
  let height := chart_area.height * 4
  let canvas := BrailleCanvas.new width height
  let data_len := s.data.length
  let x_scale := s.x_scaleOf chart_area
  let y_scale := s.y_scaleOf chart_area
  (List.range (data_len - 1)).foldl
    (fun c (i : Nat) =>
      let x1 := (F.mul (F.finite i) x_scale).toUsize
      let x2 := (F.mul (F.finite (i + 1)) x_scale).toUsize
      let y1 := height - (F.mul (F.sub (s.data.getD i (F.finite 0)) min) y_scale).toUsize
      let y2 := height - (F.mul (F.sub (s.data.getD (i + 1) (F.finite 0)) min) y_scale).toUsize
      let y1 := Nat.min y1 (height - 1)
      let y2 := Nat.min y2 (height - 1)
      let x1 := Nat.min x1 (width - 1)
      let x2 := Nat.min x2 (width - 1)
      draw_line c x1 y1 x2 y2)
    canvas

/-- `SparklineBraille::render` (`impl Widget`): optional block, emptiness and
size guard, populate the canvas, blit its Braille text. -/
def SparklineBraille.render (s : SparklineBraille) (area : Rect) (buf : Buffer) : Buffer :=
  let inner := match s.block with
    | some bl => bl area buf
    | none => (area, buf)
  let chart_area := inner.1
  let buf1 := inner.2
  if chart_area.width < 1 ∨ chart_area.height < 1 ∨ s.data.isEmpty then buf1
  else
    blitLines buf1 chart_area.x chart_area.y (rustLines (s.canvasOf chart_area).to_string)
      chart_area.height s.style

/-! ### ScannerTextState (src/ui/widgets/animated_text.rs)

The wall-clock gate `now.duration_since(last_update) >= update_interval` is
modelled by an explicit `fire` flag (per the spec, time-gated widgets take
the elapsed time as an input); when it is false the state is returned
unchanged. `position` is a usize: the cast chain
`(position as isize + direction) as usize` wraps mod 2^64. The usize
subtraction `max_width - 3` overflows (a panic) when `max_width < 3`,
modelled as `none`. -/

structure ScannerTextState where
  position : Nat
  direction : Int
deriving DecidableEq

/-- `ScannerTextState::new()` / `default()`: position 0, direction +1. -/
def ScannerTextState.new : ScannerTextState :=
  { position := 0, direction := 1 }

/-- `ScannerTextState::update`. -/
def ScannerTextState.update (s : ScannerTextState) (fire : Bool) (max_width : Nat) :
    Option ScannerTextState :=
  if fire then
    if max_width < 3 then none
    else
      let position := ((usizeToIsize s.position + s.direction) % (2 ^ 64 : Int)).toNat
      let direction :=
        if position ≥ max_width - 3 then (-1 : Int)
        else if position = 0 then 1
        else s.direction
      some { position := position, direction := direction }
  else some s

/-- A sequence of `update` calls (each with its own gate flag), left to
right; `none` once any call panics. -/
def ScannerTextState.run (s : ScannerTextState) (fires : List Bool) (max_width : Nat) :
    Option ScannerTextState :=
  fires.foldl (fun acc f => acc.bind (fun st => st.update f max_width)) (some s)

/-! ### Basic canvas lemmas -/

theorem getD_set_ne {α} (l : List α) (i j : Nat) (a d : α) (h : i ≠ j) :
    (l.set i a).getD j d = l.getD j d := by
  rw [List.getD_eq_getElem?_getD, List.getElem?_set_ne h, ← List.getD_eq_getElem?_getD]

theorem getD_set_self {α} (l : List α) (i : Nat) (a d : α) (h : i < l.length) :
    (l.set i a).getD i d = a := by
  rw [List.getD_eq_getElem?_getD, List.getElem?_set_self h]; rfl

theorem BrailleCanvas.width_set (c : BrailleCanvas) (x y : Nat) (v : Bool) :
    (c.set x y v).width = c.width := by
  unfold BrailleCanvas.set; split <;> rfl

theorem BrailleCanvas.height_set (c : BrailleCanvas) (x y : Nat) (v : Bool) :
    (c.set x y v).height = c.height := by
  unfold BrailleCanvas.set; split <;> rfl

theorem BrailleCanvas.set_out_of_range (c : BrailleCanvas) (x y : Nat) (v : Bool)
    (h : ¬(x < c.width ∧ y < c.height)) : c.set x y v = c := by
  unfold BrailleCanvas.set; exact if_neg h

theorem BrailleCanvas.wf_set (c : BrailleCanvas) (x y : Nat) (v : Bool) (h : c.wf) :
    (c.set x y v).wf := by
  unfold BrailleCanvas.set
  split
  · rename_i hin
    refine ⟨by simpa [List.length_set] using h.1, ?_⟩
    intro col hcol
    rcases List.mem_or_eq_of_mem_set hcol with hmem | heq
    · exact h.2 col hmem
    · subst heq
      rw [List.length_set]
      have hx : x < c.data.length := by rw [h.1]; exact hin.1
      have hcol0 : c.data.getD x [] = c.data[x] := by
        rw [List.getD_eq_getElem?_getD, List.getElem?_eq_getElem hx]; rfl
      rw [hcol0]
      exact h.2 _ (List.getElem_mem hx)
  · exact h

theorem BrailleCanvas.getPx_set_self (c : BrailleCanvas) (x y : Nat) (v : Bool)
    (h : c.wf) (hx : x < c.width) (hy : y < c.height) :
    (c.set x y v).getPx x y = v := by
  have hx' : x < c.data.length := by rw [h.1]; exact hx
  have hcol0 : c.data.getD x [] = c.data[x] := by
    rw [List.getD_eq_getElem?_getD, List.getElem?_eq_getElem hx']; rfl
  have hy' : y < (c.data.getD x []).length := by
    rw [hcol0, h.2 _ (List.getElem_mem hx')]; exact hy
  unfold BrailleCanvas.set BrailleCanvas.getPx
  rw [if_pos ⟨hx, hy⟩]
  show ((c.data.set x _).getD x []).getD y false = v
  rw [getD_set_self _ _ _ _ hx']
  exact getD_set_self _ _ _ _ hy'

theorem BrailleCanvas.getPx_set_other (c : BrailleCanvas) (x y p q : Nat) (v : Bool)
    (hne : p ≠ x ∨ q ≠ y) :
    (c.set x y v).getPx p q = c.getPx p q := by
  unfold BrailleCanvas.set BrailleCanvas.getPx
  split
  · show ((c.data.set x _).getD p []).getD q false = _
    by_cases hp : p = x
    · subst hp
      by_cases hlen : p < c.data.length
      · rw [getD_set_self _ _ _ _ hlen, getD_set_ne _ _ _ _ _ (by tauto)]
      · rw [List.set_eq_of_length_le (Nat.le_of_not_lt hlen)]
    · rw [getD_set_ne _ _ _ _ _ (Ne.symm hp)]
  · rfl

theorem BrailleCanvas.wf_new (w h : Nat) : (BrailleCanvas.new w h).wf := by
  refine ⟨by simp [BrailleCanvas.new], ?_⟩
  intro col hcol
  simp only [BrailleCanvas.new] at hcol
  rw [List.eq_of_mem_replicate hcol]
  simp [BrailleCanvas.new]

/-! ### Claim C8 -/

/-- C8: `BrailleCanvas::set` marks the dot when (x, y) is within bounds and
is a silent no-op when (x, y) is out of range; in both cases every other
cell of the grid and the canvas dimensions are left unchanged. -/
theorem C8_set_clips_and_preserves (c : BrailleCanvas) (x y : Nat) (v : Bool)
    (hwf : c.wf) :
    ((x < c.width ∧ y < c.height) → (c.set x y v).getPx x y = v) ∧
    (¬(x < c.width ∧ y < c.height) → c.set x y v = c) ∧
    (∀ p q : Nat, p ≠ x ∨ q ≠ y → (c.set x y v).getPx p q = c.getPx p q) ∧
    (c.set x y v).width = c.width ∧ (c.set x y v).height = c.height :=
  ⟨fun h => BrailleCanvas.getPx_set_self c x y v hwf h.1 h.2,
   BrailleCanvas.set_out_of_range c x y v,
   fun p q hpq => BrailleCanvas.getPx_set_other c x y p q v hpq,
   BrailleCanvas.width_set c x y v, BrailleCanvas.height_set c x y v⟩

/-- Witness for C8: the in-bounds write (1,2) on a fresh 4-by-8 canvas
lands, and cell (0,0) is untouched. -/
theorem C8_witness :
    (BrailleCanvas.new 4 8).wf ∧
    ((BrailleCanvas.new 4 8).set 1 2 true).getPx 1 2 = true ∧
    ((BrailleCanvas.new 4 8).set 1 2 true).getPx 0 0 = (BrailleCanvas.new 4 8).getPx 0 0 :=
  ⟨by decide,
   (C8_set_clips_and_preserves (BrailleCanvas.new 4 8) 1 2 true (by decide)).1 (by decide),
   (C8_set_clips_and_preserves (BrailleCanvas.new 4 8) 1 2 true (by decide)).2.2.1 0 0
     (Or.inl (by decide))⟩

/-! ### Claim C1 -/

/-- C1 (divergence witness): on the 2-by-5 canvas, fresh or cleared,
`to_string` returns one line containing the fixed placeholder U+2836, not
the ceil(5/4) = 2 lines of U+2800 blanks the claim requires; line count is
`H / 4` (floor), not ceil, and the blank character never appears. -/
theorem C1_to_string_floor_and_placeholder :
    (BrailleCanvas.new 2 5).to_string = "⠶\n" ∧
    (BrailleCanvas.new 2 5).clear.to_string = "⠶\n" ∧
    "⠶\n" ≠ "⠀\n⠀\n" ∧
    '⠶' = Char.ofNat 0x2836 ∧
    Char.ofNat 0x2836 ≠ Char.ofNat 0x2800 := by
  refine ⟨by decide, by decide, by decide, by decide, by decide⟩

/-! ### Claim C2 -/

/-- C2 (divergence witness): after `set(0,0)` on a fresh 2-by-4 canvas,
`to_string` still emits the placeholder U+2836 — not `0x2800 | DOT1_BIT` =
U+2801 — and its output is identical to that of the untouched canvas
(the encoder ignores the dots entirely). -/
theorem C2_set00_to_string_placeholder :
    ((BrailleCanvas.new 2 4).set 0 0 true).to_string = "⠶\n" ∧
    ((BrailleCanvas.new 2 4).set 0 0 true).to_string = (BrailleCanvas.new 2 4).to_string ∧
    "⠶\n" ≠ "⠁\n" ∧
    '⠁' = Char.ofNat 0x2801 := by
  refine ⟨by decide, by decide, by decide, by decide⟩

/-! ### Claim C3 -/

/-- C3 (panic witness): `BrailleAnimator::update` with the Matrix variant
panics (modulo by zero) on a zero-width or zero-height canvas, for every
trig implementation — the core is not total on degenerate dimensions. -/
theorem C3_matrix_update_panics_on_zero_dims :
    ∀ t : Trig,
      BrailleAnimator.update t (BrailleAnimator.new 0 20 AnimationType.Matrix) (some 5) = none ∧
      BrailleAnimator.update t (BrailleAnimator.new 20 0 AnimationType.Matrix) (some 5) = none :=
  fun _ => ⟨rfl, rfl⟩

/-! ### Claim C4 -/

/-- C4 (NaN witness): with a degenerate axis span `x_min = x_max = x` the
point `x` passes the chart's drop filter (both strict comparisons are
false), and the mapping closures compute `(x - x) / (x - x) * size` =
`0/0 * size` = NaN before the cast — no minimum-span substitution exists in
the code. -/
theorem C4_zero_span_scale_emits_nan (w h : Nat) (x : ℚ) :
    (F.flt (F.finite x) (F.finite x) = false ∧ F.fgt (F.finite x) (F.finite x) = false) ∧
    BrailleChart.scale_x_val (F.finite x) (F.finite x) w (F.finite x) = F.nan ∧
    BrailleChart.scale_y_val (F.finite x) (F.finite x) h (F.finite x) = F.nan := by
  have h1 : F.sub (F.finite x) (F.finite x) = F.finite 0 := by simp [F.sub]
  have h2 : F.div (F.finite 0) (F.finite 0) = F.nan := by simp [F.div]
  refine ⟨⟨by simp [F.flt], by simp [F.fgt, F.flt]⟩, ?_, ?_⟩
  · unfold BrailleChart.scale_x_val
    rw [h1, h2]; rfl
  · unfold BrailleChart.scale_y_val
    rw [h1, h2]; rfl

/-! ### Claim C10 -/

/-- C10: when the render area has width < 5 or height < 5,
`BrailleChart::render` returns immediately and the buffer is completely
unchanged. -/
theorem C10_render_small_area_unchanged (ch : BrailleChart) (area : Rect) (buf : Buffer)
    (h : area.width < 5 ∨ area.height < 5) :
    ch.render area buf = buf := by
  unfold BrailleChart.render
  rw [if_pos h]

/-- A concrete chart for the C10 witness. -/
def chartC10 : BrailleChart :=
  { block := none, datasets := [], style := 0, x_axis := Axis.default,
    y_axis := Axis.default, title := none }

/-- A concrete buffer for the C10 witness. -/
def bufC10 : Buffer := fun _ _ => { ch := ' ', style := 0 }

/-- Witness for C10 at a 3-by-10 area. -/
theorem C10_witness :
    ((Rect.mk 0 0 3 10).width < 5 ∨ (Rect.mk 0 0 3 10).height < 5) ∧
    chartC10.render (Rect.mk 0 0 3 10) bufC10 = bufC10 :=
  ⟨Or.inl (by decide),
   C10_render_small_area_unchanged chartC10 (Rect.mk 0 0 3 10) bufC10 (Or.inl (by decide))⟩

/-! ### Claim C7 -/

/-- The reachable-state invariant of the scanner for widths ≥ 4: moving
right strictly below the turn bound `width - 3`, or moving left anywhere in
`[1, width - 3]`. -/
def ScannerInv (w : Nat) (s : ScannerTextState) : Prop :=
  (s.direction = 1 ∧ s.position < w - 3) ∨
  (s.direction = -1 ∧ 1 ≤ s.position ∧ s.position ≤ w - 3)

theorem scanner_update_true (w : Nat) (hw : 3 ≤ w) (s : ScannerTextState)
    (hpos : s.position < 2 ^ 63) (hdir : s.direction = 1 ∨ s.direction = -1)
    (hnz : s.direction = -1 → 1 ≤ s.position) :
    s.update true w = some
      { position := ((s.position : Int) + s.direction).toNat,
        direction :=
          if ((s.position : Int) + s.direction).toNat ≥ w - 3 then -1
          else if ((s.position : Int) + s.direction).toNat = 0 then 1
          else s.direction } := by
  unfold ScannerTextState.update usizeToIsize
  rw [if_pos rfl, if_neg (by omega), if_pos hpos]
  have hid : ((s.position : Int) + s.direction) % (2 ^ 64 : Int)
      = (s.position : Int) + s.direction := by
    rcases hdir with h | h
    · rw [h]; omega
    · have := hnz h
      rw [h]; omega
  rw [hid]

theorem scanner_step (w : Nat) (hw : 4 ≤ w) (hw2 : w ≤ 2 ^ 63) (s : ScannerTextState)
    (hs : ScannerInv w s) (fire : Bool) :
    ∃ s2, s.update fire w = some s2 ∧ ScannerInv w s2 ∧
      (fire = true →
        (s2.direction ≠ s.direction ↔
          (s2.position = w - 3 ∧ s.direction = 1) ∨ (s2.position = 0 ∧ s.direction = -1))) := by
  cases fire
  · refine ⟨s, rfl, hs, by simp⟩
  · have hdir : s.direction = 1 ∨ s.direction = -1 := by
      rcases hs with ⟨h, _⟩ | ⟨h, _, _⟩
      · exact Or.inl h
      · exact Or.inr h
    have hnz : s.direction = -1 → 1 ≤ s.position := by
      intro h
      rcases hs with ⟨h1, _⟩ | ⟨_, h1, _⟩
      · rw [h1] at h; cases h
      · exact h1
    have hposb : s.position ≤ w - 3 := by
      rcases hs with ⟨_, h⟩ | ⟨_, _, h⟩
      · omega
      · exact h
    have hupd := scanner_update_true w (by omega) s (by omega) hdir hnz
    refine ⟨_, hupd, ?_, ?_⟩
    · unfold ScannerInv at hs ⊢
      dsimp only at hs ⊢
      rcases hdir with hd | hd <;> rw [hd] at hs ⊢ <;> split_ifs <;> omega
    · intro _
      unfold ScannerInv at hs
      dsimp only at hs ⊢
      rcases hdir with hd | hd <;> rw [hd] at hs ⊢ <;> split_ifs <;> omega

theorem scanner_run_inv (w : Nat) (hw : 4 ≤ w) (hw2 : w ≤ 2 ^ 63) (fires : List Bool) :
    ∀ s : ScannerTextState, ScannerInv w s →
      ∃ s2, s.run fires w = some s2 ∧ ScannerInv w s2 := by
  induction fires with
  | nil => exact fun s hs => ⟨s, rfl, hs⟩
  | cons f fs ih =>
    intro s hs
    obtain ⟨s1, hupd, hinv, _⟩ := scanner_step w hw hw2 s hs f
    obtain ⟨s2, hrun, hinv2⟩ := ih s1 hinv
    refine ⟨s2, ?_, hinv2⟩
    unfold ScannerTextState.run at hrun ⊢
    rw [List.foldl_cons]
    show List.foldl _ ((some s).bind fun st => st.update f w) fs = some s2
    rw [Option.some_bind, hupd]
    exact hrun

/-- C7 counterexample: at width 3 the claim fails — starting from
position 0, direction +1, three gated updates leave the position at
2^64 - 1 (the wrapped `(0 - 1) as usize`), far beyond width - 1 = 2; the
direction is (re)set to -1 at position 0 rather than flipping to +1. -/
theorem C7_counterexample_width3 :
    ScannerTextState.run ScannerTextState.new [true, true, true] 3 =
      some { position := 2 ^ 64 - 1, direction := -1 } ∧
    ¬(2 ^ 64 - 1 ≤ 3 - 1) := by
  refine ⟨by decide, by decide⟩

/-- C7 as amended: for every width ≥ 4 (every realistic width — widths are
u16-derived, far below the 2^63 isize-wrap bound) and every sequence of
gated `update` calls starting from position 0 with direction +1, the
position stays in [0, width-3] ⊆ [0, width-1]; on a fired update the
direction changes exactly when the new position reaches width-3 (flip to
-1) or 0 (flip to +1). For width ≤ 3 this fails (see the counterexample). -/
theorem C7_scanner_bounds (w : Nat) (hw : 4 ≤ w) (hw2 : w ≤ 2 ^ 63) (fires : List Bool) :
    (∃ s, ScannerTextState.new.run fires w = some s ∧ ScannerInv w s ∧
      s.position ≤ w - 1) ∧
    (∀ s0 s1 : ScannerTextState, ScannerInv w s0 → s0.update true w = some s1 →
      (s1.direction ≠ s0.direction ↔
        (s1.position = w - 3 ∧ s0.direction = 1) ∨ (s1.position = 0 ∧ s0.direction = -1))) := by
  constructor
  · have hinit : ScannerInv w ScannerTextState.new := Or.inl ⟨rfl, by
      unfold ScannerTextState.new; dsimp only; omega⟩
    obtain ⟨s2, hrun, hinv⟩ := scanner_run_inv w hw hw2 fires ScannerTextState.new hinit
    refine ⟨s2, hrun, hinv, ?_⟩
    rcases hinv with ⟨_, h⟩ | ⟨_, _, h⟩ <;> omega
  · intro s0 s1 hinv hupd
    obtain ⟨s2, hupd2, _, hflip⟩ := scanner_step w hw hw2 s0 hinv true
    rw [hupd] at hupd2
    cases Option.some.injEq .. ▸ hupd2
    · exact hflip rfl
    
/-- Witness for C7 at width 10 and three fired updates. -/
theorem C7_witness :
    (4 ≤ 10 ∧ (10 : Nat) ≤ 2 ^ 63) ∧
    ((∃ s, ScannerTextState.new.run [true, true, true] 10 = some s ∧ ScannerInv 10 s ∧
        s.position ≤ 10 - 1) ∧
      (∀ s0 s1 : ScannerTextState, ScannerInv 10 s0 → s0.update true 10 = some s1 →
        (s1.direction ≠ s0.direction ↔
          (s1.position = 10 - 3 ∧ s0.direction = 1) ∨ (s1.position = 0 ∧ s0.direction = -1)))) :=
  ⟨⟨by decide, by norm_num⟩, C7_scanner_bounds 10 (by decide) (by norm_num) [true, true, true]⟩

/-! ### Bresenham loop analysis -/

theorem bres_arith_x (A Bb j : Int) (hA : 0 ≤ A) (hj : 0 ≤ j) (hjb : j + 1 ≤ Bb) :
    2 * ((j + 1) * A - (A + 1) * Bb) < -Bb := by
  have h1 : (j + 1) * A ≤ Bb * A := mul_le_mul_of_nonneg_right hjb hA
  nlinarith

theorem bres_arith_y (A Bb i : Int) (hB : 0 ≤ Bb) (hi : 0 ≤ i) (hia : i + 1 ≤ A) :
    A < 2 * ((Bb + 1) * A - (i + 1) * Bb) := by
  have h1 : (i + 1) * Bb ≤ A * Bb := mul_le_mul_of_nonneg_right hia hB
  nlinarith

theorem bresGoEx_master (x0 y0 x1 y1 sx sy : Int) (a b : Nat)
    (hsx : sx = if x0 < x1 then 1 else -1)
    (hsy : sy = if y0 < y1 then 1 else -1)
    (ha : (a : Int) = (x1 - x0).natAbs)
    (hb : (b : Int) = (y1 - y0).natAbs) :
    ∀ (fuel i j : Nat), i ≤ a → j ≤ b → (a - i) + (b - j) < fuel →
      ∃ tl : List (Int × Int),
        bresGoEx x1 y1 sx sy (a : Int) (-(b : Int)) fuel (x0 + sx * i) (y0 + sy * j)
            (((j : Int) + 1) * (a : Int) - ((i : Int) + 1) * (b : Int))
          = (x0 + sx * i, y0 + sy * j) :: tl ∧
        (x1, y1) ∈ (x0 + sx * (i : Int), y0 + sy * (j : Int)) :: tl ∧
        (∀ p ∈ (x0 + sx * (i : Int), y0 + sy * (j : Int)) :: tl, ∃ ip jp : Nat,
          i ≤ ip ∧ ip ≤ a ∧ j ≤ jp ∧ jp ≤ b ∧ p = (x0 + sx * ip, y0 + sy * jp)) ∧
        List.Chain'
          (fun p q => (q.1 = p.1 ∨ q.1 = p.1 + sx) ∧ (q.2 = p.2 ∨ q.2 = p.2 + sy) ∧ q ≠ p)
          ((x0 + sx * (i : Int), y0 + sy * (j : Int)) :: tl) := by
  have hsx1 : sx = 1 ∨ sx = -1 := by
    rw [hsx]; split
    · exact Or.inl rfl
    · exact Or.inr rfl
  have hsy1 : sy = 1 ∨ sy = -1 := by
    rw [hsy]; split
    · exact Or.inl rfl
    · exact Or.inr rfl
  have hx1 : x0 + sx * a = x1 := by
    rw [hsx]; split <;> rename_i h <;> omega
  have hy1 : y0 + sy * b = y1 := by
    rw [hsy]; split <;> rename_i h <;> omega
  have factx : ∀ i : Nat, i ≤ a → (x0 + sx * i = x1 ↔ i = a) := by
    intro i hi
    rcases hsx1 with h | h <;> rw [h] at hx1 ⊢ <;> omega
  have facty : ∀ j : Nat, j ≤ b → (y0 + sy * j = y1 ↔ j = b) := by
    intro j hj
    rcases hsy1 with h | h <;> rw [h] at hy1 ⊢ <;> omega
  intro fuel
  induction fuel with
  | zero => intro i j _ _ h; omega
  | succ n ih =>
    intro i j hi hj hfuel
    by_cases hend : i = a ∧ j = b
    · -- at the endpoint: the loop plots it and breaks
      obtain ⟨hia, hjb⟩ := hend
      subst hia hjb
      refine ⟨[], ?_, ?_, ?_, ?_⟩
      · rw [bresGoEx, if_pos ⟨hx1, hy1⟩]
      · rw [hx1, hy1]
        exact List.mem_singleton.mpr rfl
      · intro p hp
        rw [List.mem_singleton] at hp
        exact ⟨i, j, le_refl _, le_refl _, le_refl _, le_refl _, hp⟩
      · exact List.chain'_singleton _
    · -- not at the endpoint: neither break can fire and the loop steps
      have hXx1 : x0 + sx * i = x1 ↔ i = a := factx i hi
      have hYy1 : y0 + sy * j = y1 ↔ j = b := facty j hj
      have htop : ¬(x0 + sx * (i : Int) = x1 ∧ y0 + sy * (j : Int) = y1) := by
        rw [hXx1, hYy1]; exact hend
      set E : Int := ((j : Int) + 1) * (a : Int) - ((i : Int) + 1) * (b : Int) with hE
      have hbr1 : (2 * E ≥ -(b : Int)) → i ≠ a := by
        intro hge hia
        have hjb : j < b := by
          rcases Nat.lt_or_ge j b with h | h
          · exact h
          · exact absurd ⟨hia, le_antisymm hj h⟩ hend
        have harith := bres_arith_x (a : Int) (b : Int) (j : Int) (by positivity)
          (by positivity) (by exact_mod_cast hjb)
        rw [hE] at hge
        subst hia
        omega
      have hbr2 : (2 * E ≤ (a : Int)) → j ≠ b := by
        intro hle hjb
        have hia : i < a := by
          rcases Nat.lt_or_ge i a with h | h
          · exact h
          · exact absurd ⟨le_antisymm hi h, hjb⟩ hend
        have harith := bres_arith_y (a : Int) (b : Int) (i : Int) (by positivity)
          (by positivity) (by exact_mod_cast hia)
        rw [hE] at hle
        subst hjb
        omega
      by_cases hX : 2 * E ≥ -((b : Nat) : Int)
      · have hia : i < a := Nat.lt_of_le_of_ne hi (hbr1 hX)
        have hbneg1 : ¬(2 * E ≥ -((b : Nat) : Int) ∧ x0 + sx * (i : Int) = x1) :=
          fun hc => hbr1 hc.1 (hXx1.mp hc.2)
        by_cases hY : 2 * E ≤ ((a : Nat) : Int)
        · -- diagonal step
          have hjb : j < b := Nat.lt_of_le_of_ne hj (hbr2 hY)
          have hbneg2 : ¬(2 * E ≤ ((a : Nat) : Int) ∧ y0 + sy * (j : Int) = y1) :=
            fun hc => hbr2 hc.1 (hYy1.mp hc.2)
          rw [bresGoEx, if_neg htop, if_neg hbneg1, if_neg hbneg2, if_pos hX, if_pos hY,
            if_pos hX, if_pos hY]
          have hXn : x0 + sx * ((i + 1 : Nat) : Int) = x0 + sx * (i : Int) + sx := by
            push_cast; ring
          have hYn : y0 + sy * ((j + 1 : Nat) : Int) = y0 + sy * (j : Int) + sy := by
            push_cast; ring
          have hEn : (((j + 1 : Nat) : Int) + 1) * (a : Int) - (((i + 1 : Nat) : Int) + 1) * (b : Int)
              = E + -((b : Nat) : Int) + (a : Int) := by
            rw [hE]; push_cast; ring
          obtain ⟨tl, heq, hmem, hbound, hchain⟩ := ih (i + 1) (j + 1) (by omega) (by omega)
            (by omega)
          rw [hXn, hYn, hEn] at heq
          rw [hXn, hYn] at hmem hbound hchain
          refine ⟨(x0 + sx * (i : Int) + sx, y0 + sy * (j : Int) + sy) :: tl, ?_, ?_, ?_, ?_⟩
          · rw [heq]
          · exact List.mem_cons_of_mem _ hmem
          · intro p hp
            rcases List.mem_cons.mp hp with hph | hpt
            · exact ⟨i, j, le_refl _, hi, le_refl _, hj, hph⟩
            · obtain ⟨ip, jp, h1, h2, h3, h4, h5⟩ := hbound p hpt
              exact ⟨ip, jp, by omega, h2, by omega, h4, h5⟩
          · refine List.chain'_cons.mpr ⟨⟨Or.inr rfl, Or.inr rfl, ?_⟩, hchain⟩
            intro hcontra
            rw [Prod.mk.injEq] at hcontra
            rcases hsx1 with h | h <;> omega
        · -- x-only step
          have hbneg2 : ¬(2 * E ≤ ((a : Nat) : Int) ∧ y0 + sy * (j : Int) = y1) :=
            fun hc => hY hc.1
          rw [bresGoEx, if_neg htop, if_neg hbneg1, if_neg hbneg2, if_pos hX, if_neg hY,
            if_pos hX, if_neg hY]
          have hXn : x0 + sx * ((i + 1 : Nat) : Int) = x0 + sx * (i : Int) + sx := by
            push_cast; ring
          have hEn : (((j : Nat) : Int) + 1) * (a : Int) - (((i + 1 : Nat) : Int) + 1) * (b : Int)
              = E + -((b : Nat) : Int) + 0 := by
            rw [hE]; push_cast; ring
          obtain ⟨tl, heq, hmem, hbound, hchain⟩ := ih (i + 1) j (by omega) hj (by omega)
          rw [hXn, hEn] at heq
          rw [hXn] at hmem hbound hchain
          refine ⟨(x0 + sx * (i : Int) + sx, y0 + sy * (j : Int)) :: tl, ?_, ?_, ?_, ?_⟩
          · rw [heq]
          · exact List.mem_cons_of_mem _ hmem
          · intro p hp
            rcases List.mem_cons.mp hp with hph | hpt
            · exact ⟨i, j, le_refl _, hi, le_refl _, hj, hph⟩
            · obtain ⟨ip, jp, h1, h2, h3, h4, h5⟩ := hbound p hpt
              exact ⟨ip, jp, by omega, h2, h3, h4, h5⟩
          · refine List.chain'_cons.mpr ⟨⟨Or.inr rfl, Or.inl rfl, ?_⟩, hchain⟩
            intro hcontra
            rw [Prod.mk.injEq] at hcontra
            rcases hsx1 with h | h <;> omega
      · -- y-only step
        have hY : 2 * E ≤ ((a : Nat) : Int) := by omega
        have hjb : j < b := Nat.lt_of_le_of_ne hj (hbr2 hY)
        have hbneg1 : ¬(2 * E ≥ -((b : Nat) : Int) ∧ x0 + sx * (i : Int) = x1) :=
          fun hc => hX hc.1
        have hbneg2 : ¬(2 * E ≤ ((a : Nat) : Int) ∧ y0 + sy * (j : Int) = y1) :=
          fun hc => hbr2 hc.1 (hYy1.mp hc.2)
        rw [bresGoEx, if_neg htop, if_neg hbneg1, if_neg hbneg2, if_neg hX, if_pos hY,
          if_neg hX, if_pos hY]
        have hYn : y0 + sy * ((j + 1 : Nat) : Int) = y0 + sy * (j : Int) + sy := by
          push_cast; ring
        have hEn : (((j + 1 : Nat) : Int) + 1) * (a : Int) - (((i : Nat) : Int) + 1) * (b : Int)
            = E + (a : Int) := by
          rw [hE]; push_cast; ring
        obtain ⟨tl, heq, hmem, hbound, hchain⟩ := ih i (j + 1) hi (by omega) (by omega)
        rw [hYn, hEn] at heq
        rw [hYn] at hmem hbound hchain
        refine ⟨(x0 + sx * (i : Int), y0 + sy * (j : Int) + sy) :: tl, ?_, ?_, ?_, ?_⟩
        · rw [heq]
        · exact List.mem_cons_of_mem _ hmem
        · intro p hp
          rcases List.mem_cons.mp hp with hph | hpt
          · exact ⟨i, j, le_refl _, hi, le_refl _, hj, hph⟩
          · obtain ⟨ip, jp, h1, h2, h3, h4, h5⟩ := hbound p hpt
            exact ⟨ip, jp, h1, h2, by omega, h4, h5⟩
        · refine List.chain'_cons.mpr ⟨⟨Or.inl rfl, Or.inr rfl, ?_⟩, hchain⟩
          intro hcontra
          rw [Prod.mk.injEq] at hcontra
          rcases hsy1 with h | h <;> omega

/-- The clipped-write loop body of `draw_line`, named for the lemmas below. -/
def clipWrite (c : BrailleCanvas) (p : Int × Int) : BrailleCanvas :=
  if 0 ≤ p.1 ∧ p.1 < (c.width : Int) ∧ 0 ≤ p.2 ∧ p.2 < (c.height : Int) then
    c.set p.1.toNat p.2.toNat true
  else c

theorem draw_line_eq_foldl (c : BrailleCanvas) (x0 y0 x1 y1 : Nat) :
    draw_line c x0 y0 x1 y1 =
      (bresPath (usizeToIsize x0) (usizeToIsize y0) (usizeToIsize x1)
        (usizeToIsize y1)).foldl clipWrite c := rfl

theorem clipWrite_width (c : BrailleCanvas) (p : Int × Int) :
    (clipWrite c p).width = c.width := by
  unfold clipWrite
  split
  · exact BrailleCanvas.width_set ..
  · rfl

theorem clipWrite_height (c : BrailleCanvas) (p : Int × Int) :
    (clipWrite c p).height = c.height := by
  unfold clipWrite
  split
  · exact BrailleCanvas.height_set ..
  · rfl

theorem clipWrite_wf (c : BrailleCanvas) (p : Int × Int) (h : c.wf) :
    (clipWrite c p).wf := by
  unfold clipWrite
  split
  · exact BrailleCanvas.wf_set _ _ _ _ h
  · exact h

theorem clipWrite_getPx_mono (c : BrailleCanvas) (p : Int × Int) (u v : Nat)
    (hwf : c.wf) (h : c.getPx u v = true) : (clipWrite c p).getPx u v = true := by
  unfold clipWrite
  split
  · rename_i hin
    by_cases huv : p.1.toNat = u ∧ p.2.toNat = v
    · rw [← huv.1, ← huv.2]
      exact BrailleCanvas.getPx_set_self c _ _ true hwf (by omega) (by omega)
    · rw [BrailleCanvas.getPx_set_other c _ _ u v true (by tauto)]
      exact h
  · exact h

theorem clip_foldl_wf (L : List (Int × Int)) (c : BrailleCanvas) (h : c.wf) :
    (L.foldl clipWrite c).wf := by
  induction L generalizing c with
  | nil => exact h
  | cons p L ih => exact ih _ (clipWrite_wf c p h)

theorem clip_foldl_getPx_mono (L : List (Int × Int)) (c : BrailleCanvas) (u v : Nat)
    (hwf : c.wf) (h : c.getPx u v = true) : (L.foldl clipWrite c).getPx u v = true := by
  induction L generalizing c with
  | nil => exact h
  | cons p L ih =>
    exact ih _ (clipWrite_wf c p hwf) (clipWrite_getPx_mono c p u v hwf h)

theorem clip_foldl_dims (L : List (Int × Int)) (c : BrailleCanvas) :
    (L.foldl clipWrite c).width = c.width ∧ (L.foldl clipWrite c).height = c.height := by
  induction L generalizing c with
  | nil => exact ⟨rfl, rfl⟩
  | cons p L ih =>
    refine ⟨?_, ?_⟩
    · rw [List.foldl_cons, (ih (clipWrite c p)).1, clipWrite_width]
    · rw [List.foldl_cons, (ih (clipWrite c p)).2, clipWrite_height]

theorem clip_foldl_getPx_of_mem (L : List (Int × Int)) (c : BrailleCanvas)
    (hwf : c.wf) (p : Int × Int) (hp : p ∈ L)
    (hin : 0 ≤ p.1 ∧ p.1 < (c.width : Int) ∧ 0 ≤ p.2 ∧ p.2 < (c.height : Int)) :
    (L.foldl clipWrite c).getPx p.1.toNat p.2.toNat = true := by
  induction L generalizing c with
  | nil => cases hp
  | cons q L ih =>
    rw [List.foldl_cons]
    rcases List.mem_cons.mp hp with hph | hpt
    · subst hph
      apply clip_foldl_getPx_mono L _ _ _ (clipWrite_wf c p hwf)
      unfold clipWrite
      rw [if_pos hin]
      exact BrailleCanvas.getPx_set_self c _ _ true hwf (by omega) (by omega)
    · exact ih (clipWrite c q) (clipWrite_wf c q hwf) hpt
        (by rw [clipWrite_width, clipWrite_height]; exact hin)

theorem clip_foldl_getPx_of_not_mem (L : List (Int × Int)) (c : BrailleCanvas) (u v : Nat)
    (h : ((u : Int), (v : Int)) ∉ L) :
    (L.foldl clipWrite c).getPx u v = c.getPx u v := by
  induction L generalizing c with
  | nil => rfl
  | cons p L ih =>
    rw [List.foldl_cons, ih _ (fun hmem => h (List.mem_cons_of_mem _ hmem))]
    unfold clipWrite
    split
    · rename_i hin
      have hne : u ≠ p.1.toNat ∨ v ≠ p.2.toNat := by
        by_contra hc
        push_neg at hc
        apply h
        have : p = ((u : Int), (v : Int)) := by
          have h1 : p.1 = (u : Int) := by omega
          have h2 : p.2 = (v : Int) := by omega
          exact Prod.ext h1 h2
        rw [← this]
        exact List.mem_cons_self ..
      exact BrailleCanvas.getPx_set_other c _ _ u v true hne
    · rfl

theorem bresPathEx_spec (x0 y0 x1 y1 : Int) :
    ∃ tl : List (Int × Int),
      bresPathEx x0 y0 x1 y1 = (x0, y0) :: tl ∧
      (x1, y1) ∈ bresPathEx x0 y0 x1 y1 ∧
      (∀ p ∈ bresPathEx x0 y0 x1 y1, ∃ ip jp : Nat,
        ip ≤ (x1 - x0).natAbs ∧ jp ≤ (y1 - y0).natAbs ∧
        p = (x0 + (if x0 < x1 then 1 else -1) * ip, y0 + (if y0 < y1 then 1 else -1) * jp)) ∧
      List.Chain' (fun p q => (q.1 - p.1).natAbs ≤ 1 ∧ (q.2 - p.2).natAbs ≤ 1 ∧ q ≠ p)
        (bresPathEx x0 y0 x1 y1) := by
  have hdef : bresPathEx x0 y0 x1 y1 =
      bresGoEx x1 y1 (if x0 < x1 then 1 else -1) (if y0 < y1 then 1 else -1)
        (((x1 - x0).natAbs : Int)) (-(((y1 - y0).natAbs : Int)))
        ((x1 - x0).natAbs + (y1 - y0).natAbs + 1) x0 y0
        (((x1 - x0).natAbs : Int) + -(((y1 - y0).natAbs : Int))) := rfl
  have hm := bresGoEx_master x0 y0 x1 y1 (if x0 < x1 then 1 else -1) (if y0 < y1 then 1 else -1)
    (x1 - x0).natAbs (y1 - y0).natAbs rfl rfl rfl rfl
    ((x1 - x0).natAbs + (y1 - y0).natAbs + 1) 0 0 (Nat.zero_le _) (Nat.zero_le _) (by omega)
  have h0x : x0 + (if x0 < x1 then (1 : Int) else -1) * (((0 : Nat)) : Int) = x0 := by
    push_cast; ring
  have h0y : y0 + (if y0 < y1 then (1 : Int) else -1) * (((0 : Nat)) : Int) = y0 := by
    push_cast; ring
  have herr : ((((0 : Nat)) : Int) + 1) * (((x1 - x0).natAbs : Nat) : Int)
      - ((((0 : Nat)) : Int) + 1) * (((y1 - y0).natAbs : Nat) : Int)
      = (((x1 - x0).natAbs : Int)) + -(((y1 - y0).natAbs : Int)) := by
    push_cast; ring
  rw [h0x, h0y, herr, ← hdef] at hm
  obtain ⟨tl, heq, hmem, hbound, hchain⟩ := hm
  have hsx1 : (if x0 < x1 then (1 : Int) else -1) = 1 ∨ (if x0 < x1 then (1 : Int) else -1) = -1 := by
    split
    · exact Or.inl rfl
    · exact Or.inr rfl
  have hsy1 : (if y0 < y1 then (1 : Int) else -1) = 1 ∨ (if y0 < y1 then (1 : Int) else -1) = -1 := by
    split
    · exact Or.inl rfl
    · exact Or.inr rfl
  refine ⟨tl, heq, by rw [heq]; exact hmem, ?_, ?_⟩
  · intro p hp
    rw [heq] at hp
    obtain ⟨ip, jp, _, h2, _, h4, h5⟩ := hbound p hp
    exact ⟨ip, jp, h2, h4, h5⟩
  · rw [heq]
    refine List.Chain'.imp ?_ hchain
    intro p q hpq
    obtain ⟨hq1, hq2, hq3⟩ := hpq
    refine ⟨?_, ?_, hq3⟩
    · rcases hq1 with h | h <;> rcases hsx1 with hs | hs <;> omega
    · rcases hq2 with h | h <;> rcases hsy1 with hs | hs <;> omega

theorem wrap64_eq_self (z : Int) (h1 : -(2 ^ 63) ≤ z) (h2 : z < 2 ^ 63) :
    wrap64 z = z := by
  unfold wrap64
  omega

/-- Whenever every isize value the loop computes stays inside
`[-2^63, 2^63)`, the source loop coincides with the exact Bresenham walk.
The error value at loop heads satisfies `-2b ≤ err ≤ 2a` (carried as a
hypothesis and re-established at every step), so with `a, b < 2^61` and
start coordinates below `2^62` no intermediate can overflow. -/
theorem bresGo_eq_ex (x0 y0 x1 y1 sx sy : Int) (a b : Nat)
    (hsx : sx = if x0 < x1 then 1 else -1)
    (hsy : sy = if y0 < y1 then 1 else -1)
    (ha : (a : Int) = (x1 - x0).natAbs)
    (hb : (b : Int) = (y1 - y0).natAbs)
    (hx0l : -(2 ^ 62) ≤ x0) (hx0u : x0 ≤ 2 ^ 62)
    (hy0l : -(2 ^ 62) ≤ y0) (hy0u : y0 ≤ 2 ^ 62)
    (hab : (a : Int) < 2 ^ 61) (hbb : (b : Int) < 2 ^ 61) :
    ∀ (fuel i j : Nat), i ≤ a → j ≤ b →
      -(2 * (b : Int)) ≤ ((j : Int) + 1) * (a : Int) - ((i : Int) + 1) * (b : Int) →
      ((j : Int) + 1) * (a : Int) - ((i : Int) + 1) * (b : Int) ≤ 2 * (a : Int) →
      bresGo x1 y1 sx sy (a : Int) (-(b : Int)) fuel (x0 + sx * i) (y0 + sy * j)
          (((j : Int) + 1) * (a : Int) - ((i : Int) + 1) * (b : Int))
        = bresGoEx x1 y1 sx sy (a : Int) (-(b : Int)) fuel (x0 + sx * i) (y0 + sy * j)
          (((j : Int) + 1) * (a : Int) - ((i : Int) + 1) * (b : Int)) := by
  have hsx1 : sx = 1 ∨ sx = -1 := by
    rw [hsx]; split
    · exact Or.inl rfl
    · exact Or.inr rfl
  have hsy1 : sy = 1 ∨ sy = -1 := by
    rw [hsy]; split
    · exact Or.inl rfl
    · exact Or.inr rfl
  have hx1 : x0 + sx * a = x1 := by
    rw [hsx]; split <;> rename_i h <;> omega
  have hy1 : y0 + sy * b = y1 := by
    rw [hsy]; split <;> rename_i h <;> omega
  have factx : ∀ i : Nat, i ≤ a → (x0 + sx * i = x1 ↔ i = a) := by
    intro i hi
    rcases hsx1 with h | h <;> rw [h] at hx1 ⊢ <;> omega
  have facty : ∀ j : Nat, j ≤ b → (y0 + sy * j = y1 ↔ j = b) := by
    intro j hj
    rcases hsy1 with h | h <;> rw [h] at hy1 ⊢ <;> omega
  intro fuel
  induction fuel with
  | zero => intro i j _ _ _ _; rfl
  | succ n ih =>
    intro i j hi hj hlo hhi
    set E : Int := ((j : Int) + 1) * (a : Int) - ((i : Int) + 1) * (b : Int) with hE
    have hw2 : wrap64 (2 * E) = 2 * E := wrap64_eq_self _ (by omega) (by omega)
    rw [bresGo, bresGoEx, hw2]
    by_cases htop : x0 + sx * (i : Int) = x1 ∧ y0 + sy * (j : Int) = y1
    · rw [if_pos htop, if_pos htop]
    · rw [if_neg htop, if_neg htop]
      by_cases hbr1 : 2 * E ≥ -((b : Nat) : Int) ∧ x0 + sx * (i : Int) = x1
      · rw [if_pos hbr1, if_pos hbr1]
      · rw [if_neg hbr1, if_neg hbr1]
        by_cases hbr2 : 2 * E ≤ ((a : Nat) : Int) ∧ y0 + sy * (j : Int) = y1
        · rw [if_pos hbr2, if_pos hbr2]
        · rw [if_neg hbr2, if_neg hbr2]
          refine congrArg (List.cons _) ?_
          have hwx : wrap64 (x0 + sx * (i : Int) + sx) = x0 + sx * (i : Int) + sx := by
            refine wrap64_eq_self _ ?_ ?_ <;> rcases hsx1 with h | h <;> rw [h] <;> omega
          have hwy : wrap64 (y0 + sy * (j : Int) + sy) = y0 + sy * (j : Int) + sy := by
            refine wrap64_eq_self _ ?_ ?_ <;> rcases hsy1 with h | h <;> rw [h] <;> omega
          by_cases hX : 2 * E ≥ -((b : Nat) : Int)
          · have hine : i ≠ a := fun hia => hbr1 ⟨hX, (factx i hi).mpr hia⟩
            by_cases hY : 2 * E ≤ ((a : Nat) : Int)
            · -- diagonal step
              have hjne : j ≠ b := fun hjb => hbr2 ⟨hY, (facty j hj).mpr hjb⟩
              simp only [if_pos hX, if_pos hY]
              have hwe1 : wrap64 (E + -((b : Nat) : Int)) = E + -((b : Nat) : Int) :=
                wrap64_eq_self _ (by omega) (by omega)
              have hwe2 : wrap64 (E + -((b : Nat) : Int) + (a : Int))
                  = E + -((b : Nat) : Int) + (a : Int) :=
                wrap64_eq_self _ (by omega) (by omega)
              rw [hwx, hwy, hwe1, hwe2]
              have hXn : x0 + sx * (i : Int) + sx = x0 + sx * ((i + 1 : Nat) : Int) := by
                push_cast; ring
              have hYn : y0 + sy * (j : Int) + sy = y0 + sy * ((j + 1 : Nat) : Int) := by
                push_cast; ring
              have hEn : E + -((b : Nat) : Int) + (a : Int)
                  = (((j + 1 : Nat) : Int) + 1) * (a : Int)
                    - (((i + 1 : Nat) : Int) + 1) * (b : Int) := by
                rw [hE]; push_cast; ring
              rw [hXn, hYn, hEn]
              exact ih (i + 1) (j + 1) (by omega) (by omega)
                (by rw [← hEn]; omega) (by rw [← hEn]; omega)
            · -- x-only step
              simp only [if_pos hX, if_neg hY]
              have hwe1 : wrap64 (E + -((b : Nat) : Int)) = E + -((b : Nat) : Int) :=
                wrap64_eq_self _ (by omega) (by omega)
              rw [hwx, hwe1, add_zero]
              have hXn : x0 + sx * (i : Int) + sx = x0 + sx * ((i + 1 : Nat) : Int) := by
                push_cast; ring
              have hEn : E + -((b : Nat) : Int)
                  = (((j : Nat) : Int) + 1) * (a : Int)
                    - (((i + 1 : Nat) : Int) + 1) * (b : Int) := by
                rw [hE]; push_cast; ring
              rw [hXn, hEn]
              exact ih (i + 1) j (by omega) hj (by rw [← hEn]; omega) (by rw [← hEn]; omega)
          · -- y-only step
            have hY : 2 * E ≤ ((a : Nat) : Int) := by omega
            have hjne : j ≠ b := fun hjb => hbr2 ⟨hY, (facty j hj).mpr hjb⟩
            simp only [if_neg hX, if_pos hY]
            have hwe1 : wrap64 (E + (a : Int)) = E + (a : Int) :=
              wrap64_eq_self _ (by omega) (by omega)
            rw [hwy, hwe1]
            have hYn : y0 + sy * (j : Int) + sy = y0 + sy * ((j + 1 : Nat) : Int) := by
              push_cast; ring
            have hEn : E + (a : Int)
                = (((j + 1 : Nat) : Int) + 1) * (a : Int)
                  - (((i : Nat) : Int) + 1) * (b : Int) := by
              rw [hE]; push_cast; ring
            rw [hYn, hEn]
            exact ih i (j + 1) hi (by omega) (by rw [← hEn]; omega) (by rw [← hEn]; omega)

/-- `bresPath` spelled out as its underlying `bresGo` call. -/
theorem bresPath_def (x0 y0 x1 y1 : Int) : bresPath x0 y0 x1 y1 =
    bresGo x1 y1 (if x0 < x1 then 1 else -1) (if y0 < y1 then 1 else -1)
      (iabs (wrap64 (x1 - x0))) (wrap64 (-(iabs (wrap64 (y1 - y0)))))
      ((iabs (wrap64 (x1 - x0))).natAbs + (wrap64 (-(iabs (wrap64 (y1 - y0))))).natAbs + 1)
      x0 y0 (wrap64 (iabs (wrap64 (x1 - x0)) + wrap64 (-(iabs (wrap64 (y1 - y0)))))) := rfl

/-- For coordinates below `2^60` none of `draw_line`'s isize operations
overflow: the program's visited path is exactly the ideal Bresenham walk. -/
theorem bresPath_eq_ex (x0 y0 x1 y1 : Int)
    (hx0l : -(2 ^ 60) < x0) (hx0u : x0 < 2 ^ 60)
    (hy0l : -(2 ^ 60) < y0) (hy0u : y0 < 2 ^ 60)
    (hx1l : -(2 ^ 60) < x1) (hx1u : x1 < 2 ^ 60)
    (hy1l : -(2 ^ 60) < y1) (hy1u : y1 < 2 ^ 60) :
    bresPath x0 y0 x1 y1 = bresPathEx x0 y0 x1 y1 := by
  have hdx : wrap64 (x1 - x0) = x1 - x0 := wrap64_eq_self _ (by omega) (by omega)
  have hdy : wrap64 (y1 - y0) = y1 - y0 := wrap64_eq_self _ (by omega) (by omega)
  have habsx : iabs (x1 - x0) = (((x1 - x0).natAbs : Nat) : Int) := by
    unfold iabs
    rw [Int.abs_eq_natAbs]
    exact wrap64_eq_self _ (by omega) (by omega)
  have habsy : iabs (y1 - y0) = (((y1 - y0).natAbs : Nat) : Int) := by
    unfold iabs
    rw [Int.abs_eq_natAbs]
    exact wrap64_eq_self _ (by omega) (by omega)
  have hnegy : wrap64 (-(((y1 - y0).natAbs : Nat) : Int))
      = -(((y1 - y0).natAbs : Nat) : Int) :=
    wrap64_eq_self _ (by omega) (by omega)
  have herr : wrap64 ((((x1 - x0).natAbs : Nat) : Int) + -(((y1 - y0).natAbs : Nat) : Int))
      = (((x1 - x0).natAbs : Nat) : Int) + -(((y1 - y0).natAbs : Nat) : Int) :=
    wrap64_eq_self _ (by omega) (by omega)
  rw [bresPath_def, hdx, hdy, habsx, habsy, hnegy, herr,
    Int.natAbs_ofNat, Int.natAbs_neg, Int.natAbs_ofNat]
  dsimp only [bresPathEx]
  have habound : (((x1 - x0).natAbs : Nat) : Int) < 2 ^ 61 := by
    rw [Int.natCast_natAbs, abs_lt]
    constructor <;> omega
  have hbbound : (((y1 - y0).natAbs : Nat) : Int) < 2 ^ 61 := by
    rw [Int.natCast_natAbs, abs_lt]
    constructor <;> omega
  have heq := bresGo_eq_ex x0 y0 x1 y1 (if x0 < x1 then 1 else -1)
    (if y0 < y1 then 1 else -1) (x1 - x0).natAbs (y1 - y0).natAbs rfl rfl rfl rfl
    (by omega) (by omega) (by omega) (by omega)
    habound hbbound
    ((x1 - x0).natAbs + (y1 - y0).natAbs + 1) 0 0 (Nat.zero_le _) (Nat.zero_le _)
    (by simp only [Nat.cast_zero, zero_add, one_mul]; omega)
    (by simp only [Nat.cast_zero, zero_add, one_mul]; omega)
  have h0x : x0 + (if x0 < x1 then (1 : Int) else -1) * (((0 : Nat)) : Int) = x0 := by
    push_cast; ring
  have h0y : y0 + (if y0 < y1 then (1 : Int) else -1) * (((0 : Nat)) : Int) = y0 := by
    push_cast; ring
  have h0e : ((((0 : Nat)) : Int) + 1) * (((x1 - x0).natAbs : Nat) : Int)
      - ((((0 : Nat)) : Int) + 1) * (((y1 - y0).natAbs : Nat) : Int)
      = (((x1 - x0).natAbs : Nat) : Int) + -(((y1 - y0).natAbs : Nat) : Int) := by
    push_cast; ring
  rw [h0x, h0y, h0e] at heq
  exact heq

/-- When the initial y already equals the endpoint y, the loop never moves
y: every visited point lies in that row (needs no overflow assumptions —
the y-step is guarded by the same condition as the second break). -/
theorem bresGo_const_y (x1 y1 sx sy dx dy : Int) :
    ∀ (fuel : Nat) (x err : Int),
      ∀ p ∈ bresGo x1 y1 sx sy dx dy fuel x y1 err, p.2 = y1 := by
  intro fuel
  induction fuel with
  | zero =>
    intro x err p hp
    cases hp
  | succ n ih =>
    intro x err p hp
    rw [bresGo] at hp
    rcases List.mem_cons.mp hp with hph | hpt
    · rw [hph]
    · by_cases h1 : x = x1 ∧ y1 = y1
      · rw [if_pos h1] at hpt; cases hpt
      · rw [if_neg h1] at hpt
        by_cases h2 : wrap64 (2 * err) ≥ dy ∧ x = x1
        · rw [if_pos h2] at hpt; cases hpt
        · rw [if_neg h2] at hpt
          by_cases h3 : wrap64 (2 * err) ≤ dx ∧ y1 = y1
          · rw [if_pos h3] at hpt; cases hpt
          · rw [if_neg h3] at hpt
            have hYstay : (if wrap64 (2 * err) ≤ dx then wrap64 (y1 + sy) else y1) = y1 :=
              if_neg (fun hc => h3 ⟨hc, rfl⟩)
            rw [hYstay] at hpt
            exact ih _ _ p hpt

theorem bresPath_singleton (x0 y0 : Int) : bresPath x0 y0 x0 y0 = [(x0, y0)] := by
  have h0 : wrap64 0 = 0 := by decide
  have habs : iabs 0 = 0 := by decide
  unfold bresPath
  simp only [sub_self, h0, habs, neg_zero, add_zero, Int.natAbs_zero]
  rw [bresGo]
  simp

/-- C5 (amended): for endpoint coordinates below `2^60` — comfortably
covering every coordinate a real canvas can have, and keeping every isize
operation of the loop far from overflow — `draw_line` walks exactly the
ideal 8-connected Bresenham path between the two endpoints: the program's
visited path equals the exact-arithmetic walk `bresPathEx`, the path starts
at (x0,y0), contains (x1,y1), consecutive path pixels are at Chebyshev
distance 1, every path pixel inside the canvas is set (each write clipped
independently), pixels off the path are untouched, and a zero-length
segment has the singleton path — for in-range usize inputs it performs
exactly the single clipped write `set(x0, y0)`. Without the coordinate
bound the claim is false: near `2^63` the `2 * err` wraps (see the
divergence at (0,0)→(2^63−2,1)). -/
theorem C5_draw_line_contract (c : BrailleCanvas) (x0 y0 x1 y1 : Nat) (hwf : c.wf)
    (hx0 : x0 < 2 ^ 60) (hy0 : y0 < 2 ^ 60) (hx1 : x1 < 2 ^ 60) (hy1 : y1 < 2 ^ 60) :
    (bresPath (usizeToIsize x0) (usizeToIsize y0) (usizeToIsize x1) (usizeToIsize y1)
      = bresPathEx (usizeToIsize x0) (usizeToIsize y0) (usizeToIsize x1) (usizeToIsize y1)) ∧
    ((usizeToIsize x0, usizeToIsize y0) ∈
      bresPath (usizeToIsize x0) (usizeToIsize y0) (usizeToIsize x1) (usizeToIsize y1)) ∧
    ((usizeToIsize x1, usizeToIsize y1) ∈
      bresPath (usizeToIsize x0) (usizeToIsize y0) (usizeToIsize x1) (usizeToIsize y1)) ∧
    List.Chain' (fun p q => (q.1 - p.1).natAbs ≤ 1 ∧ (q.2 - p.2).natAbs ≤ 1 ∧ q ≠ p)
      (bresPath (usizeToIsize x0) (usizeToIsize y0) (usizeToIsize x1) (usizeToIsize y1)) ∧
    (∀ p ∈ bresPath (usizeToIsize x0) (usizeToIsize y0) (usizeToIsize x1) (usizeToIsize y1),
      0 ≤ p.1 → p.1 < (c.width : Int) → 0 ≤ p.2 → p.2 < (c.height : Int) →
        (draw_line c x0 y0 x1 y1).getPx p.1.toNat p.2.toNat = true) ∧
    (∀ u v : Nat,
      ((u : Int), (v : Int)) ∉
          bresPath (usizeToIsize x0) (usizeToIsize y0) (usizeToIsize x1) (usizeToIsize y1) →
        (draw_line c x0 y0 x1 y1).getPx u v = c.getPx u v) ∧
    (x0 = x1 → y0 = y1 →
      bresPath (usizeToIsize x0) (usizeToIsize y0) (usizeToIsize x1) (usizeToIsize y1)
          = [(usizeToIsize x0, usizeToIsize y0)] ∧
      (x0 < 2 ^ 64 → y0 < 2 ^ 64 → c.width ≤ 2 ^ 63 → c.height ≤ 2 ^ 63 →
        draw_line c x0 y0 x1 y1 = c.set x0 y0 true)) := by
  have hc0 : usizeToIsize x0 = (x0 : Int) := by
    unfold usizeToIsize; rw [if_pos (by omega)]
  have hc1 : usizeToIsize y0 = (y0 : Int) := by
    unfold usizeToIsize; rw [if_pos (by omega)]
  have hc2 : usizeToIsize x1 = (x1 : Int) := by
    unfold usizeToIsize; rw [if_pos (by omega)]
  have hc3 : usizeToIsize y1 = (y1 : Int) := by
    unfold usizeToIsize; rw [if_pos (by omega)]
  have heqex := bresPath_eq_ex (usizeToIsize x0) (usizeToIsize y0) (usizeToIsize x1)
    (usizeToIsize y1)
    (by rw [hc0]; omega) (by rw [hc0]; omega)
    (by rw [hc1]; omega) (by rw [hc1]; omega)
    (by rw [hc2]; omega) (by rw [hc2]; omega)
    (by rw [hc3]; omega) (by rw [hc3]; omega)
  obtain ⟨tl, heq, hmem, hbound, hchain⟩ :=
    bresPathEx_spec (usizeToIsize x0) (usizeToIsize y0) (usizeToIsize x1) (usizeToIsize y1)
  rw [← heqex] at heq hmem hchain
  refine ⟨heqex, by rw [heq]; exact List.mem_cons_self .., hmem, hchain, ?_, ?_, ?_⟩
  · intro p hp h1 h2 h3 h4
    rw [draw_line_eq_foldl]
    exact clip_foldl_getPx_of_mem _ c hwf p hp ⟨h1, h2, h3, h4⟩
  · intro u v h
    rw [draw_line_eq_foldl]
    exact clip_foldl_getPx_of_not_mem _ c u v h
  · intro hx hy
    subst hx hy
    refine ⟨bresPath_singleton _ _, ?_⟩
    intro hx64 hy64 hwd hht
    rw [draw_line_eq_foldl, bresPath_singleton]
    show clipWrite c (usizeToIsize x0, usizeToIsize y0) = c.set x0 y0 true
    unfold clipWrite usizeToIsize
    by_cases hx0 : x0 < 2 ^ 63
    · by_cases hy0 : y0 < 2 ^ 63
      · rw [if_pos hx0, if_pos hy0]
        by_cases hcond : x0 < c.width ∧ y0 < c.height
        · rw [if_pos ⟨by positivity,
            by show ((x0 : Int)) < (c.width : Int); exact_mod_cast hcond.1, by positivity,
            by show ((y0 : Int)) < (c.height : Int); exact_mod_cast hcond.2⟩]
          simp [BrailleCanvas.set]
        · rw [if_neg (fun hc => hcond ⟨by
            have h1 : ((x0 : Int)) < (c.width : Int) := hc.2.1
            exact_mod_cast h1, by
            have h2 : ((y0 : Int)) < (c.height : Int) := hc.2.2.2
            exact_mod_cast h2⟩)]
          exact (BrailleCanvas.set_out_of_range c x0 y0 true hcond).symm
      · rw [if_pos hx0, if_neg hy0]
        rw [if_neg (fun hc => by
          have h1 := hc.2.2.1
          omega)]
        exact (BrailleCanvas.set_out_of_range c x0 y0 true (fun hc => by omega)).symm
    · rw [if_neg hx0]
      rw [if_neg (fun hc => by
        have h1 : (0 : Int) ≤ (x0 : Int) - 2 ^ 64 := hc.1
        omega)]
      exact (BrailleCanvas.set_out_of_range c x0 y0 true (fun hc => by omega)).symm

/-- Witness for C5: the spec's own example — the segment (0,0)→(9,0) on a
20-by-8 canvas has exactly the row path (x,0), x = 0..9. -/
theorem C5_witness :
    (BrailleCanvas.new 20 8).wf ∧ (0 : Nat) < 2 ^ 60 ∧ (9 : Nat) < 2 ^ 60 ∧
    bresPath (usizeToIsize 0) (usizeToIsize 0) (usizeToIsize 9) (usizeToIsize 0)
      = [(0, 0), (1, 0), (2, 0), (3, 0), (4, 0), (5, 0), (6, 0), (7, 0), (8, 0), (9, 0)] ∧
    ((usizeToIsize 9, usizeToIsize 0) ∈
      bresPath (usizeToIsize 0) (usizeToIsize 0) (usizeToIsize 9) (usizeToIsize 0)) :=
  ⟨by decide, by decide, by decide, by decide,
   (C5_draw_line_contract (BrailleCanvas.new 20 8) 0 0 9 0 (by decide)
      (by decide) (by decide) (by decide) (by decide)).2.2.1⟩

/-- C5 counterexample to the unrestricted claim: at the valid usize input
(0,0)→(2^63−2, 1) on a 4×8 canvas the loop's `2 * err` overflows isize
(the exact value 2^64−6 wraps to −6, which is no longer ≥ dy = −1): the
program's visited path is only [(0,0),(0,1)], while the ideal walk visits
(1,0) — an in-canvas pixel that `draw_line` leaves unset. (A debug build
panics at the same multiplication.) -/
theorem C5_counterexample :
    usizeToIsize (2 ^ 63 - 2) = 2 ^ 63 - 2 ∧
    bresPath 0 0 (2 ^ 63 - 2) 1 = [(0, 0), (0, 1)] ∧
    ((1 : Int), (0 : Int)) ∈ bresPathEx 0 0 (2 ^ 63 - 2) 1 ∧
    1 < (BrailleCanvas.new 4 8).width ∧ 0 < (BrailleCanvas.new 4 8).height ∧
    (draw_line (BrailleCanvas.new 4 8) 0 0 (2 ^ 63 - 2) 1).getPx 1 0 = false := by
  have h0 : usizeToIsize 0 = (0 : Int) := by decide
  have h1 : usizeToIsize 1 = (1 : Int) := by decide
  have h2 : usizeToIsize (2 ^ 63 - 2) = (2 ^ 63 - 2 : Int) := by decide
  have hstep : ∀ fuel : Nat,
      bresGo (2 ^ 63 - 2) 1 1 1 (2 ^ 63 - 2) (-1) (fuel + 2) 0 0 (2 ^ 63 - 3)
        = [(0, 0), (0, 1)] := by
    intro fuel
    have hA : wrap64 (2 * (2 ^ 63 - 3 : Int)) = -6 := by decide
    have hB : wrap64 ((0 : Int) + 1) = 1 := by decide
    have hC : wrap64 ((2 ^ 63 - 3 : Int) + (2 ^ 63 - 2)) = -5 := by decide
    have hD : wrap64 (2 * (-5 : Int)) = -10 := by decide
    have g1 : ¬((0 : Int) = 2 ^ 63 - 2 ∧ (0 : Int) = 1) := by decide
    have g2a : ¬((-6 : Int) ≥ -1 ∧ (0 : Int) = 2 ^ 63 - 2) := by decide
    have g3a : ¬((-6 : Int) ≤ 2 ^ 63 - 2 ∧ (0 : Int) = 1) := by decide
    have g2 : ¬((-6 : Int) ≥ -1) := by decide
    have g3 : ((-6 : Int) ≤ 2 ^ 63 - 2) := by decide
    have k1 : ¬((0 : Int) = 2 ^ 63 - 2 ∧ (1 : Int) = 1) := by decide
    have k2 : ¬((-10 : Int) ≥ -1 ∧ (0 : Int) = 2 ^ 63 - 2) := by decide
    have k3 : ((-10 : Int) ≤ 2 ^ 63 - 2 ∧ (1 : Int) = 1) := by decide
    rw [show fuel + 2 = fuel + 1 + 1 by omega, bresGo, hA]
    simp only [if_neg g1, if_neg g2a, if_neg g3a, if_neg g2, if_pos g3, hB]
    rw [hC]
    refine congrArg (List.cons _) ?_
    rw [bresGo, hD]
    refine congrArg (List.cons _) ?_
    rw [if_neg k1, if_neg k2, if_pos k3]
  have hpath : bresPath 0 0 (2 ^ 63 - 2) 1 = [(0, 0), (0, 1)] := by
    have hdx : iabs (wrap64 ((2 ^ 63 - 2 : Int) - 0)) = 2 ^ 63 - 2 := by decide
    have hdy : wrap64 (-(iabs (wrap64 ((1 : Int) - 0)))) = -1 := by decide
    have hsx : ((0 : Int) < 2 ^ 63 - 2) := by decide
    have hsy : ((0 : Int) < 1) := by decide
    rw [bresPath_def, if_pos hsx, if_pos hsy, hdx, hdy]
    have herr : wrap64 ((2 ^ 63 - 2 : Int) + -1) = 2 ^ 63 - 3 := by decide
    have hfuel : (2 ^ 63 - 2 : Int).natAbs + (-1 : Int).natAbs + 1
        = (2 ^ 63 - 2) + 2 := by decide
    rw [herr, hfuel]
    exact hstep _
  have hexmem : ((1 : Int), (0 : Int)) ∈ bresPathEx 0 0 (2 ^ 63 - 2) 1 := by
    have hdxc : ((((2 ^ 63 - 2 : Int) - 0).natAbs : Nat) : Int) = 2 ^ 63 - 2 := by decide
    have hdyc : (-((((1 : Int) - 0).natAbs : Nat) : Int)) = -1 := by decide
    have hfuel : ((2 ^ 63 - 2 : Int) - 0).natAbs + ((1 : Int) - 0).natAbs + 1
        = (2 ^ 63 - 2) + 1 + 1 := by decide
    have hsx : ((0 : Int) < 2 ^ 63 - 2) := by decide
    have hsy : ((0 : Int) < 1) := by decide
    dsimp only [bresPathEx]
    rw [if_pos hsx, if_pos hsy, hdxc, hdyc, hfuel]
    have herr : ((2 ^ 63 - 2 : Int) + -1) = 2 ^ 63 - 3 := by decide
    rw [herr, bresGoEx]
    have e1 : ¬((0 : Int) = 2 ^ 63 - 2 ∧ (0 : Int) = 1) := by decide
    have e2 : ¬(2 * (2 ^ 63 - 3 : Int) ≥ -1 ∧ (0 : Int) = 2 ^ 63 - 2) := by decide
    have e3 : ¬(2 * (2 ^ 63 - 3 : Int) ≤ 2 ^ 63 - 2 ∧ (0 : Int) = 1) := by decide
    have e4 : (2 * (2 ^ 63 - 3 : Int) ≥ -1) := by decide
    have e5 : ¬(2 * (2 ^ 63 - 3 : Int) ≤ 2 ^ 63 - 2) := by decide
    simp only [if_neg e1, if_neg e2, if_neg e3, if_pos e4, if_neg e5, zero_add]
    refine List.mem_cons_of_mem _ ?_
    rw [bresGoEx]
    exact List.mem_cons_self ..
  refine ⟨h2, hpath, hexmem, by decide, by decide, ?_⟩
  rw [draw_line_eq_foldl, h0, h1, h2, hpath]
  decide

/-! ### Clearing a canvas -/

theorem inner_clear_length (n : Nat) (col : List Bool) :
    ((List.range n).foldl (fun c y => c.set y false) col).length = col.length := by
  induction n with
  | zero => rfl
  | succ n ih =>
    rw [List.range_succ, List.foldl_append, List.foldl_cons, List.foldl_nil,
      List.length_set, ih]

theorem inner_clear_getElem (n : Nat) (col : List Bool) (k : Nat) :
    ((List.range n).foldl (fun c y => c.set y false) col)[k]? =
      if k < n ∧ k < col.length then some false else col[k]? := by
  induction n with
  | zero =>
    rw [List.range_zero, List.foldl_nil, if_neg (by omega)]
  | succ n ih =>
    rw [List.range_succ, List.foldl_append, List.foldl_cons, List.foldl_nil]
    by_cases hk : k = n
    · subst hk
      by_cases hlen : k < col.length
      · rw [List.getElem?_set_self (by rw [inner_clear_length]; exact hlen),
          if_pos (by omega)]
      · rw [List.set_eq_of_length_le (by rw [inner_clear_length]; omega), ih,
          if_neg (by omega), if_neg (by omega)]
    · rw [List.getElem?_set_ne (fun hc => hk hc.symm), ih]
      by_cases h1 : k < n ∧ k < col.length
      · rw [if_pos h1, if_pos (by omega)]
      · rw [if_neg h1, if_neg (by omega)]

theorem inner_clear_replicate (h : Nat) (col : List Bool) (hlen : col.length = h) :
    (List.range h).foldl (fun c y => c.set y false) col = List.replicate h false := by
  apply List.ext_getElem?
  intro k
  rw [inner_clear_getElem, List.getElem?_replicate]
  by_cases hk : k < h
  · rw [if_pos (by omega), if_pos hk]
  · rw [if_neg (by omega), if_neg hk, List.getElem?_eq_none (by omega)]

theorem outer_clear_length (n h : Nat) (d : List (List Bool)) :
    ((List.range n).foldl
      (fun d x => d.set x ((List.range h).foldl (fun col y => col.set y false) (d.getD x [])))
      d).length = d.length := by
  induction n generalizing d with
  | zero => rfl
  | succ n ih =>
    rw [List.range_succ, List.foldl_append, List.foldl_cons, List.foldl_nil,
      List.length_set, ih]

theorem outer_clear_getElem (n h : Nat) (d : List (List Bool)) (k : Nat) :
    ((List.range n).foldl
      (fun d x => d.set x ((List.range h).foldl (fun col y => col.set y false) (d.getD x [])))
      d)[k]? =
      if k < n ∧ k < d.length then
        some ((List.range h).foldl (fun col y => col.set y false) (d.getD k []))
      else d[k]? := by
  induction n generalizing k with
  | zero =>
    rw [List.range_zero, List.foldl_nil, if_neg (by omega)]
  | succ n ih =>
    rw [List.range_succ, List.foldl_append, List.foldl_cons, List.foldl_nil]
    have hgetD : ((List.range n).foldl
        (fun d x => d.set x ((List.range h).foldl (fun col y => col.set y false) (d.getD x [])))
        d).getD n [] = d.getD n [] := by
      rw [List.getD_eq_getElem?_getD, ih, if_neg (by omega), ← List.getD_eq_getElem?_getD]
    rw [hgetD]
    by_cases hk : k = n
    · subst hk
      by_cases hlen : k < d.length
      · rw [List.getElem?_set_self (by rw [outer_clear_length]; exact hlen),
          if_pos (by omega)]
      · rw [List.set_eq_of_length_le (by rw [outer_clear_length]; omega), ih,
          if_neg (by omega), if_neg (by omega)]
    · rw [List.getElem?_set_ne (fun hc => hk hc.symm), ih]
      by_cases h1 : k < n ∧ k < d.length
      · rw [if_pos h1, if_pos (by omega)]
      · rw [if_neg h1, if_neg (by omega)]

/-- For every well-formed canvas, `clear` produces the all-false grid of the
same dimensions, whatever the previous dot contents. -/
theorem BrailleCanvas.clear_eq (c : BrailleCanvas) (hwf : c.wf) :
    c.clear = ⟨c.width, c.height, List.replicate c.width (List.replicate c.height false)⟩ := by
  obtain ⟨hlen, hcols⟩ := hwf
  unfold BrailleCanvas.clear
  have hdata : ((List.range c.width).foldl
      (fun d x => d.set x ((List.range c.height).foldl (fun col y => col.set y false) (d.getD x [])))
      c.data) = List.replicate c.width (List.replicate c.height false) := by
    apply List.ext_getElem?
    intro k
    rw [outer_clear_getElem, List.getElem?_replicate]
    by_cases hk : k < c.width
    · rw [if_pos (by omega), if_pos hk]
      have hcol : c.data.getD k [] = c.data[k] := by
        rw [List.getD_eq_getElem?_getD, List.getElem?_eq_getElem (by omega)]; rfl
      rw [hcol, inner_clear_replicate _ _ (hcols _ (List.getElem_mem (by omega)))]
    · rw [if_neg (by omega), if_neg hk, List.getElem?_eq_none (by omega)]
  rw [hdata]

/-- Specialization of `clear_eq` to a literal canvas record. -/
theorem BrailleCanvas.clear_mk (w h : Nat) (d : List (List Bool))
    (hwf : (BrailleCanvas.mk w h d).wf) :
    (BrailleCanvas.mk w h d).clear =
      ⟨w, h, List.replicate w (List.replicate h false)⟩ :=
  BrailleCanvas.clear_eq _ hwf

/-- C6: `BrailleAnimator::update` is deterministic — its result is a pure
function of (frame_index, variant, width, height) and the trig functions.
In particular it does not depend on the previous canvas contents (`clear`
wipes them), and the unused `start_time` field is not even consulted. Two
animators agreeing on the scalar inputs produce identical canvases from any
two well-formed prior grids. -/
theorem C6_update_deterministic (t : Trig) (w h fc n : Nat) (ty : AnimationType)
    (d1 d2 : List (List Bool))
    (h1 : (BrailleCanvas.mk w h d1).wf) (h2 : (BrailleCanvas.mk w h d2).wf) :
    BrailleAnimator.update t ⟨⟨w, h, d1⟩, w, h, ty, fc⟩ (some n) =
      BrailleAnimator.update t ⟨⟨w, h, d2⟩, w, h, ty, fc⟩ (some n) := by
  unfold BrailleAnimator.update
  rw [show (⟨⟨w, h, d1⟩, w, h, ty, fc⟩ : BrailleAnimator).canvas.clear
      = (BrailleCanvas.mk w h d1).clear from rfl,
    show (⟨⟨w, h, d2⟩, w, h, ty, fc⟩ : BrailleAnimator).canvas.clear
      = (BrailleCanvas.mk w h d2).clear from rfl,
    BrailleCanvas.clear_mk w h d1 h1, BrailleCanvas.clear_mk w h d2 h2]

/-- Witness for C6: the Matrix variant at frame 5 on a 20-by-20 canvas with
two different prior grids. -/
theorem C6_witness :
    (BrailleCanvas.mk 20 20 (List.replicate 20 (List.replicate 20 false))).wf ∧
    (BrailleCanvas.mk 20 20
      ((List.replicate 20 (List.replicate 20 false)).set 3
        ((List.replicate 20 false).set 4 true))).wf ∧
    BrailleAnimator.update ⟨fun _ => F.finite 0, fun _ => F.finite 0⟩
        ⟨⟨20, 20, List.replicate 20 (List.replicate 20 false)⟩, 20, 20,
          AnimationType.Matrix, 5⟩ (some 5) =
      BrailleAnimator.update ⟨fun _ => F.finite 0, fun _ => F.finite 0⟩
        ⟨⟨20, 20, ((List.replicate 20 (List.replicate 20 false)).set 3
          ((List.replicate 20 false).set 4 true))⟩, 20, 20,
          AnimationType.Matrix, 5⟩ (some 5) :=
  ⟨by decide, by decide,
   C6_update_deterministic ⟨fun _ => F.finite 0, fun _ => F.finite 0⟩ 20 20 5 5
     AnimationType.Matrix _ _ (by decide) (by decide)⟩

/-! ### Sparkline flat-data analysis -/

theorem fmax_finite_of_le (a b : ℚ) (h : a ≤ b) :
    F.fmax (F.finite a) (F.finite b) = F.finite b := by
  simp [F.fmax, F.fle, h]

theorem fmin_finite_of_le (a b : ℚ) (h : b ≤ a) :
    F.fmin (F.finite a) (F.finite b) = F.finite b := by
  simp only [F.fmin, F.fle]
  split
  · rename_i h2
    rw [le_antisymm (by simpa using h2) h]
  · rfl

theorem foldl_fmax_const (q : ℚ) (m : Nat) :
    List.foldl (fun acc x => F.fmax acc x) (F.finite q) (List.replicate m (F.finite q))
      = F.finite q := by
  induction m with
  | zero => rfl
  | succ m ih =>
    rw [List.replicate_succ, List.foldl_cons, fmax_finite_of_le q q (le_refl q), ih]

theorem foldl_fmin_const (q : ℚ) (m : Nat) :
    List.foldl (fun acc x => F.fmin acc x) (F.finite q) (List.replicate m (F.finite q))
      = F.finite q := by
  induction m with
  | zero => rfl
  | succ m ih =>
    rw [List.replicate_succ, List.foldl_cons, fmin_finite_of_le q q (le_refl q), ih]

theorem getD_replicate {α} (n : Nat) (a : α) (i : Nat) (d : α) :
    (List.replicate n a).getD i d = if i < n then a else d := by
  rw [List.getD_eq_getElem?_getD, List.getElem?_replicate]
  by_cases hi : i < n
  · rw [if_pos hi, if_pos hi]; rfl
  · rw [if_neg hi, if_neg hi]; rfl

theorem getPx_new (w h u v : Nat) : (BrailleCanvas.new w h).getPx u v = false := by
  unfold BrailleCanvas.new BrailleCanvas.getPx
  show ((List.replicate w (List.replicate h false)).getD u []).getD v false = false
  rw [getD_replicate]
  by_cases hu : u < w
  · rw [if_pos hu, getD_replicate]
    split <;> rfl
  · rw [if_neg hu]; rfl

theorem draw_line_row (c : BrailleCanvas) (x0 x1 r : Nat) (hr : r < 2 ^ 63) (u v : Nat)
    (h : (draw_line c x0 r x1 r).getPx u v = true) :
    c.getPx u v = true ∨ v = r := by
  by_cases hmem : ((u : Int), (v : Int)) ∈
      bresPath (usizeToIsize x0) (usizeToIsize r) (usizeToIsize x1) (usizeToIsize r)
  · right
    rw [bresPath_def] at hmem
    have hy := bresGo_const_y (usizeToIsize x1) (usizeToIsize r) _ _ _ _ _ _ _
      ((u : Int), (v : Int)) hmem
    have hcast : usizeToIsize r = (r : Int) := by
      unfold usizeToIsize
      rw [if_pos hr]
    rw [hcast] at hy
    have hv : (v : Int) = (r : Int) := hy
    exact_mod_cast hv
  · left
    rw [draw_line_eq_foldl] at h
    rw [clip_foldl_getPx_of_not_mem _ _ _ _ hmem] at h
    exact h

theorem foldl_row_invariant (L : List Nat) (f : BrailleCanvas → Nat → BrailleCanvas) (r : Nat)
    (hf : ∀ c i, i ∈ L → ∀ u v : Nat, (f c i).getPx u v = true → c.getPx u v = true ∨ v = r)
    (c0 : BrailleCanvas) (h0 : ∀ u v : Nat, c0.getPx u v = true → v = r) :
    ∀ u v : Nat, (L.foldl f c0).getPx u v = true → v = r := by
  induction L generalizing c0 with
  | nil => exact h0
  | cons i L ih =>
    intro u v h
    rw [List.foldl_cons] at h
    refine ih (fun c j hj => hf c j (List.mem_cons_of_mem _ hj)) (f c0 i) ?_ u v h
    intro u v hg
    rcases hf c0 i (List.mem_cons_self ..) u v hg with hc | hv
    · exact h0 u v hc
    · exact hv

/-- C9: on flat data (every sample the same finite value q, min/max not
supplied), the sparkline's computed min and max are both q, the padded
y-scale `height / (max - min + 1)` is the finite value `height` (no NaN or
infinity), every per-sample scaled y-offset is exactly the finite value 0,
and the rendered canvas is a flat line: only the bottom dot row can be lit. -/
theorem C9_flat_data_sparkline (s : SparklineBraille) (area : Rect) (m : Nat) (q : ℚ)
    (hdata : s.data = List.replicate m (F.finite q)) (hm : 1 ≤ m)
    (hmax : s.max = none) (hmin : s.min = none)
    (hql : f64MIN ≤ q) (hqu : q ≤ f64MAX)
    (hh16 : area.height ≤ 65535) :
    s.computed_max = F.finite q ∧
    s.computed_min = F.finite q ∧
    s.y_scaleOf area = F.finite ((area.height * 4 : Nat) : ℚ) ∧
    (∀ i, i < m → F.mul (F.sub (s.data.getD i (F.finite 0)) s.computed_min)
      (s.y_scaleOf area) = F.finite 0) ∧
    (∀ u v : Nat, (s.canvasOf area).getPx u v = true → v = area.height * 4 - 1) := by
  have hsub : F.sub (F.finite q) (F.finite q) = F.finite 0 := by simp [F.sub]
  have hmaxq : s.computed_max = F.finite q := by
    unfold SparklineBraille.computed_max
    rw [hmax, hdata]
    show List.foldl _ (F.finite f64MIN) (List.replicate m (F.finite q)) = F.finite q
    cases m with
    | zero => omega
    | succ m' =>
      rw [List.replicate_succ, List.foldl_cons, fmax_finite_of_le _ _ hql,
        foldl_fmax_const]
  have hminq : s.computed_min = F.finite q := by
    unfold SparklineBraille.computed_min
    rw [hmin, hdata]
    show List.foldl _ (F.finite f64MAX) (List.replicate m (F.finite q)) = F.finite q
    cases m with
    | zero => omega
    | succ m' =>
      rw [List.replicate_succ, List.foldl_cons, fmin_finite_of_le _ _ hqu,
        foldl_fmin_const]
  have hysc : s.y_scaleOf area = F.finite ((area.height * 4 : Nat) : ℚ) := by
    unfold SparklineBraille.y_scaleOf
    rw [hmaxq, hminq, hsub]
    have h2 : F.add (F.finite 0) (F.finite 1) = F.finite 1 := by
      show F.finite (0 + 1) = F.finite 1
      norm_num
    rw [h2]
    simp [F.div]
  have hyval : ∀ i, i < m → F.mul (F.sub (s.data.getD i (F.finite 0)) s.computed_min)
      (s.y_scaleOf area) = F.finite 0 := by
    intro i hi
    rw [hdata, getD_replicate, if_pos hi, hminq, hsub, hysc]
    simp [F.mul]
  refine ⟨hmaxq, hminq, hysc, hyval, ?_⟩
  intro u v hPx
  simp only [SparklineBraille.canvasOf] at hPx
  refine foldl_row_invariant _ _ _ ?_ _ ?_ u v hPx
  · intro c i hiL u v h
    have hi : i < m - 1 := by
      rw [hdata, List.length_replicate] at hiL
      exact List.mem_range.mp hiL
    rw [hyval i (by omega), hyval (i + 1) (by omega)] at h
    have htoU : (F.finite (0 : ℚ)).toUsize = 0 := by simp [F.toUsize]
    rw [htoU, Nat.sub_zero] at h
    have hminN : Nat.min (area.height * 4) (area.height * 4 - 1) = area.height * 4 - 1 := by
      have h1 : Nat.min (area.height * 4) (area.height * 4 - 1)
          = min (area.height * 4) (area.height * 4 - 1) := rfl
      rw [h1, min_eq_right (by omega)]
    rw [hminN] at h
    exact draw_line_row _ _ _ _ (by omega) u v h
  · intro u v h
    rw [getPx_new] at h
    cases h

/-- Concrete sparkline for the C9 witness: data = [1.0, 1.0, 1.0]. -/
def sparkC9 : SparklineBraille :=
  SparklineBraille.new [F.finite 1, F.finite 1, F.finite 1]

/-- Concrete 2-by-1-cell chart area for the C9 witness. -/
def rectC9 : Rect := { x := 0, y := 0, width := 2, height := 1 }

/-- Witness for C9 on data [1.0, 1.0, 1.0]. -/
theorem C9_witness :
    (sparkC9.data = List.replicate 3 (F.finite 1) ∧ sparkC9.max = none ∧
      sparkC9.min = none ∧ f64MIN ≤ (1 : ℚ) ∧ (1 : ℚ) ≤ f64MAX) ∧
    (sparkC9.computed_max = F.finite 1 ∧
      sparkC9.computed_min = F.finite 1 ∧
      sparkC9.y_scaleOf rectC9 = F.finite ((rectC9.height * 4 : Nat) : ℚ) ∧
      (∀ i, i < 3 → F.mul (F.sub (sparkC9.data.getD i (F.finite 0)) sparkC9.computed_min)
        (sparkC9.y_scaleOf rectC9) = F.finite 0) ∧
      (∀ u v : Nat, (sparkC9.canvasOf rectC9).getPx u v = true →
        v = rectC9.height * 4 - 1)) :=
  ⟨⟨rfl, rfl, rfl, by norm_num [f64MIN], by norm_num [f64MAX]⟩,
   C9_flat_data_sparkline sparkC9 rectC9 3 1 rfl (by decide) rfl rfl
     (by norm_num [f64MIN]) (by norm_num [f64MAX]) (by decide)⟩
